import Mathlib

/-!
# attentive: AT modem library — time conversion, response encoding, Telit driver

A shallow embedding of `src/at-timegm.c`, of the response-type encoding of
`include/attentive/parser.h` and of the Telit driver `src/modem/telit2.c`.

Conventions of the embedding.

* A C `int` is a Lean `Int`; every `int` operation of the source that can leave
  the 32-bit range is followed by `int32`, the two's-complement reduction.
  `int64_t` operations are followed by `int64`. `time_t` is taken as a signed
  64-bit integer, so that the final cast of `at_timegm` is the identity.
* C `/` and `%` on `int` truncate towards zero: `Int.tdiv` and `Int.tmod`.
* A C string is a `List Char` (the bytes before the terminating NUL).
-/

namespace Attentive

/-! ## Machine integers -/

/-- Two's-complement reduction of an integer to the range of a 32-bit `int`. -/
def int32 (x : Int) : Int := (x + 2147483648) % 4294967296 - 2147483648

/-- Two's-complement reduction of an integer to the range of `int64_t`. -/
def int64 (x : Int) : Int :=
  (x + 9223372036854775808) % 18446744073709551616 - 9223372036854775808

/-- The loop `for (int i = start; i < stop; ++i) acc = body(i, acc);`.
The first argument bounds the number of iterations; `(stop - start).toNat`
iterations always suffice (`for_loop_fuel`). -/
def for_loop {α : Type} : Nat → Int → Int → (Int → α → α) → α → α
  | 0, _, _, _, acc => acc
  | fuel + 1, i, stop, body, acc =>
    if i < stop then for_loop fuel (int32 (i + 1)) stop body (body i acc) else acc

/-! ## `src/at-timegm.c` -/

/-- The fields of `struct tm` that `at_timegm` reads. -/
structure tm where
  tm_sec : Int
  tm_min : Int
  tm_hour : Int
  tm_mday : Int
  tm_mon : Int
  tm_year : Int
  deriving DecidableEq

/-- The function `static int is_leap_year(int year)`. -/
def is_leap_year (year : Int) : Bool :=
  year.tmod 4 == 0 && (year.tmod 100 != 0 || year.tmod 400 == 0)

/-- The table `static const int days[12]` of `days_in_month`. -/
def days : List Int := [31, 28, 31, 30, 31, 30, 31, 31, 30, 31, 30, 31]

/-- The function `static int days_in_month(int year, int month)`. The source
indexes the table without a bounds check; `at_timegm` only calls it with
`0 ≤ month < 12`. In the embedding an index above the table yields `0` and a
negative index reads entry `0`. -/
def days_in_month (year month : Int) : Int :=
  if month == 1 && is_leap_year year then 29 else days.getD month.toNat 0

/-- Month and year normalisation of `at_timegm`: the pair `(year, month)`
after the `if (month > 11) … else if (month < 0) …` statement. -/
def normalize_month (year month : Int) : Int × Int :=
  if month > 11 then
    (int32 (year + month.tdiv 12), month.tmod 12)
  else if month < 0 then
    let years_diff := (int32 (11 - month)).tdiv 12
    (int32 (year - years_diff), int32 (month + int32 (12 * years_diff)))
  else
    (year, month)

/-- The function `time_t at_timegm(const struct tm *tm)`. The three `for`
loops get the number of iterations they make as fuel. -/
def at_timegm (t : tm) : Int :=
  let year := int32 (t.tm_year + 1900)
  let month := t.tm_mon
  let day := t.tm_mday
  let hour := t.tm_hour
  let minute := t.tm_min
  let second := t.tm_sec
  -- Normalize month and year
  let ym := normalize_month year month
  let year := ym.1
  let month := ym.2
  -- Days since Unix epoch
  let days : Int := 0
  -- Years to days
  let days := for_loop (year - 1970).toNat 1970 year
    (fun y d => int64 (d + (if is_leap_year y then 366 else 365))) days
  let days := for_loop (1970 - year).toNat year 1970
    (fun y d => int64 (d - (if is_leap_year y then 366 else 365))) days
  -- Months to days
  let days := for_loop month.toNat 0 month
    (fun m d => int64 (d + days_in_month year m)) days
  -- Days
  let days := int64 (days + int32 (day - 1))
  -- Total seconds
  let total_seconds :=
    int64 (int64 (int64 (int64 (days * 86400) + int32 (hour * 3600))
      + int32 (minute * 60)) + second)
  total_seconds

/-! ## Reference calendar arithmetic (proleptic Gregorian calendar) -/

/-- Number of days from 1970-01-01 to the civil date `y`-`m`-`d`
(`m` in 1..12) in the proleptic Gregorian calendar: the standard
era-based `days_from_civil` computation, with floor division. -/
def days_from_civil (y m d : Int) : Int :=
  let y := if m ≤ 2 then y - 1 else y
  let era := y / 400
  let yoe := y - era * 400
  let mp := if m > 2 then m - 3 else m + 9
  let doy := (153 * mp + 2) / 5 + d - 1
  let doe := yoe * 365 + yoe / 4 - yoe / 100 + doy
  era * 146097 + doe - 719468

/-- Gregorian leap-year rule. -/
def gregorian_leap (y : Int) : Prop := y % 4 = 0 ∧ (y % 100 ≠ 0 ∨ y % 400 = 0)

instance (y : Int) : Decidable (gregorian_leap y) := by
  unfold gregorian_leap; infer_instance

/-- Length of month `m` (1..12) of year `y` in the Gregorian calendar. -/
def gregorian_month_length (y m : Int) : Int :=
  if m = 2 then (if gregorian_leap y then 29 else 28)
  else if m = 4 ∨ m = 6 ∨ m = 9 ∨ m = 11 then 30
  else 31


/-! ## Auxiliary functions used in the proofs -/

/-- Sum of `f i + f (i+1) + … + f (i+n-1)`. -/
def sum_from (f : Int → Int) : Int → Nat → Int
  | _, 0 => 0
  | i, n + 1 => f i + sum_from f (i + 1) n

/-- Number of leap days in the years before `y`, up to a constant:
the value grows by one exactly across a leap year. -/
def leaps_before (y : Int) : Int := (y - 1) / 4 - (y - 1) / 100 + (y - 1) / 400

/-- Length in days of year `y`, as the year loops of `at_timegm` add it. -/
def year_length (y : Int) : Int := if is_leap_year y then 366 else 365

/-- Days of the months before month index `m` (0..11) of a year, by leapness. -/
def days_before_month (leap : Bool) (m : Int) : Int :=
  (if m ≤ 0 then 0 else if m ≤ 1 then 31 else
   if m ≤ 2 then 59 else if m ≤ 3 then 90 else if m ≤ 4 then 120 else
   if m ≤ 5 then 151 else if m ≤ 6 then 181 else if m ≤ 7 then 212 else
   if m ≤ 8 then 243 else if m ≤ 9 then 273 else if m ≤ 10 then 304 else 334)
  + (if leap = true ∧ 2 ≤ m then 1 else 0)

/-- What follows a numeral in the input is not a digit. -/
def no_digit_ahead (rest : List Char) : Prop := ∀ c cs, rest = c :: cs → c.isDigit = false

/-! ## `include/attentive/parser.h`: response types -/

/-- The enumerator `AT_RESPONSE_UNEXPECTED = -1`: unexpected line; usually an
unhandled URC. -/
def AT_RESPONSE_UNEXPECTED : Int := -1
/-- The enumerator `AT_RESPONSE_UNKNOWN = 0`: pass the response to next parser
in chain. -/
def AT_RESPONSE_UNKNOWN : Int := 0
/-- The enumerator `AT_RESPONSE_INTERMEDIATE`: intermediate response, stored. -/
def AT_RESPONSE_INTERMEDIATE : Int := 1
/-- The enumerator `AT_RESPONSE_FINAL_OK`: final response, not stored. -/
def AT_RESPONSE_FINAL_OK : Int := 2
/-- The enumerator `AT_RESPONSE_FINAL`: final response, stored. -/
def AT_RESPONSE_FINAL : Int := 3
/-- The enumerator `AT_RESPONSE_URC`: unsolicited result code. -/
def AT_RESPONSE_URC : Int := 4
/-- The enumerator `_AT_RESPONSE_RAWDATA_FOLLOWS`, the tag of
`AT_RESPONSE_RAWDATA_FOLLOWS`. -/
def _AT_RESPONSE_RAWDATA_FOLLOWS : Int := 5
/-- The enumerator `_AT_RESPONSE_HEXDATA_FOLLOWS`, the tag of
`AT_RESPONSE_HEXDATA_FOLLOWS`. -/
def _AT_RESPONSE_HEXDATA_FOLLOWS : Int := 6
/-- The macro `#define _AT_RESPONSE_TYPE_MASK 0xff`. -/
def _AT_RESPONSE_TYPE_MASK : Int := 0xff

/-- The bit pattern of an `int`: its value modulo `2^32`. -/
def to_u32 (x : Int) : Nat := (x % 4294967296).toNat

/-- The C expression `a | b` on `int` (two's complement). -/
def bit_or (a b : Int) : Int := int32 ((to_u32 a ||| to_u32 b : Nat) : Int)

/-- The C expression `a & b` on `int` (two's complement). -/
def bit_and (a b : Int) : Int := int32 ((to_u32 a &&& to_u32 b : Nat) : Int)

/-- The C expression `x << k` on `int`: multiplication by `2^k`, reduced to
32 bits. -/
def shl (x : Int) (k : Nat) : Int := int32 (x * 2 ^ k)

/-- The C expression `x >> k` on `int`: arithmetic shift, that is floor
division by `2^k`. -/
def shr (x : Int) (k : Nat) : Int := x >>> k

/-- The macro `#define AT_RESPONSE_RAWDATA_FOLLOWS(amount)
(_AT_RESPONSE_RAWDATA_FOLLOWS | ((amount) << 8))`. -/
def AT_RESPONSE_RAWDATA_FOLLOWS (amount : Int) : Int :=
  bit_or _AT_RESPONSE_RAWDATA_FOLLOWS (shl amount 8)

/-- The macro `#define AT_RESPONSE_HEXDATA_FOLLOWS(amount)
(_AT_RESPONSE_HEXDATA_FOLLOWS | ((amount) << 8))`. -/
def AT_RESPONSE_HEXDATA_FOLLOWS (amount : Int) : Int :=
  bit_or _AT_RESPONSE_HEXDATA_FOLLOWS (shl amount 8)

/-! ## The C library function `sscanf`, for the formats the driver uses

The directives modelled are white space, ordinary characters, `%d` and `%*d`
(ISO C, 7.21.6.2). -/

/-- C `isspace` in the "C" locale. -/
def is_space (c : Char) : Bool :=
  c == ' ' || c == '\t' || c == '\n' || c == '\x0b' || c == '\x0c' || c == '\r'

/-- Skip leading white space of the input. -/
def skip_space : List Char → List Char
  | [] => []
  | c :: cs => if is_space c then skip_space cs else c :: cs

/-- Read the longest run of decimal digits, accumulating its value. -/
def take_digits : List Char → Nat → Nat × List Char
  | [], acc => (acc, [])
  | c :: cs, acc =>
    if c.isDigit then take_digits cs (acc * 10 + (c.toNat - 48)) else (acc, c :: cs)

/-- Outcome of one conversion. -/
inductive Conv where
  | input_failure
  | matching_failure
  | ok (value : Int) (rest : List Char)
  deriving DecidableEq

/-- The conversion `%d`: skip white space, then an optional sign and a
non-empty run of decimal digits. The value is stored in an `int`. -/
def scan_int (s : List Char) : Conv :=
  match skip_space s with
  | [] => Conv.input_failure
  | c :: cs =>
    let neg := c == '-'
    let body := if c == '-' || c == '+' then cs else c :: cs
    match body with
    | [] => Conv.matching_failure
    | d :: _ =>
      if d.isDigit then
        let r := take_digits body 0
        Conv.ok (int32 (if neg then -(r.1 : Int) else (r.1 : Int))) r.2
      else Conv.matching_failure

/-- A directive of a format string. -/
inductive Directive where
  | space
  | lit (c : Char)
  | int (assign : Bool)
  deriving DecidableEq

/-- Split a format string into directives: `%d`, `%*d`, white space and
ordinary characters. -/
def parse_format : List Char → List Directive
  | [] => []
  | '%' :: 'd' :: fs => Directive.int true :: parse_format fs
  | '%' :: '*' :: 'd' :: fs => Directive.int false :: parse_format fs
  | c :: fs => (if is_space c then Directive.space else Directive.lit c) :: parse_format fs

/-- The value `EOF` that `sscanf` returns when the input ends before the first
conversion has completed. -/
def EOF : Int := -1

/-- Execute the directives on the input. `conv` tells whether a conversion has
completed, `out` holds the values assigned so far. The result is the return
value of `sscanf` and the values stored through its pointer arguments. -/
def sscanf_run : List Directive → List Char → Bool → List Int → Int × List Int
  | [], _, _, out => (out.length, out)
  | Directive.space :: ds, s, conv, out => sscanf_run ds (skip_space s) conv out
  | Directive.lit c :: ds, s, conv, out =>
    match s with
    | [] => (if conv then (out.length : Int) else EOF, out)
    | x :: xs => if x == c then sscanf_run ds xs conv out else (out.length, out)
  | Directive.int assign :: ds, s, conv, out =>
    match scan_int s with
    | Conv.input_failure => (if conv then (out.length : Int) else EOF, out)
    | Conv.matching_failure => (out.length, out)
    | Conv.ok v rest => sscanf_run ds rest true (if assign then out ++ [v] else out)

/-- The call `sscanf(str, format, …)`: the return value and the list of the
values assigned, in argument order. -/
def sscanf (str : List Char) (format : String) : Int × List Int :=
  sscanf_run (parse_format format.toList) str false []

/-! ## `src/modem/telit2.c`: payload scanners -/

/-- The function `static enum at_response_type scanner_srecv(const char *line,
size_t len, void *arg)`; `len` and `arg` are unused. -/
def scanner_srecv (line : List Char) : Int :=
  let r := sscanf line "#SRECV: %*d,%d"
  if r.1 == 1 then
    let chunk := r.2.getD 0 0
    AT_RESPONSE_RAWDATA_FOLLOWS chunk
  else AT_RESPONSE_UNKNOWN

/-- The function `static enum at_response_type scanner_ftprecv(const char
*line, size_t len, void *arg)`; `len` and `arg` are unused. -/
def scanner_ftprecv (line : List Char) : Int :=
  let r := sscanf line "#FTPRECV: %d"
  if r.1 == 1 then
    let bytes := r.2.getD 0 0
    AT_RESPONSE_RAWDATA_FOLLOWS bytes
  else AT_RESPONSE_UNKNOWN

/-! ## `src/modem/telit2.c`: line classification -/

/-- Modelled from the spec: `at_prefix_in_table` is declared in
`include/attentive/parser.h` and defined in the parser source, which is not
among the sources. It "scans a null-terminated array of prefixes and returns
true if any matches the start of the line". The NULL-terminated array is a
list. -/
def at_prefix_in_table (line : List Char) : List String → Bool
  | [] => false
  | p :: table => if p.toList.isPrefixOf line then true else at_prefix_in_table line table

/-- The table `static const char *const telit2_urc_responses[]`. -/
def telit2_urc_responses : List String := ["SRING: ", "#AGPSRING: "]

/-- The function `static enum at_response_type scan_line(const char *line,
size_t len, void *arg)`; `len` and `arg` are unused. -/
def scan_line (line : List Char) : Int :=
  if at_prefix_in_table line telit2_urc_responses then AT_RESPONSE_URC
  else AT_RESPONSE_UNKNOWN

/-! ## `src/modem/telit2.c`: reading the clock -/

/-- The fields of `struct timespec`. -/
structure timespec where
  tv_sec : Int
  tv_nsec : Int
  deriving DecidableEq

/-- The value of `EINVAL` in `<errno.h>`. -/
def EINVAL : Int := 22

/-- What a call of `telit2_op_clock_gettime` does. The macro `at_simple_scanf`
comes from `attentive/at.h`, which is not among the sources. It is taken to
run `sscanf(response, format, …)`, as its name and arguments say, and to leave
the calling function when the response is missing or not all the arguments
are assigned; what the function returns then is decided in that header and is
left open here (`scanf_exit`). Otherwise the function returns `ret`, having
set `errno` (if `errno` is `some`) and left `ts` in `*ts`. -/
inductive clock_outcome where
  | scanf_exit
  | returned (ret : Int) (errno : Option Int) (ts : timespec)
  deriving DecidableEq

/-- The function `static int telit2_op_clock_gettime(struct cellular *modem,
struct timespec *ts)`, as a function of the response of the modem to `AT+CCLK?`
(`none` is the `NULL` that `at_command` returns) and of the initial `*ts`. -/
def telit2_op_clock_gettime (response : Option (List Char)) (ts : timespec) :
    clock_outcome :=
  match response with
  | none => clock_outcome.scanf_exit
  | some response =>
    -- memset(&tm, 0, sizeof(struct tm)); at_simple_scanf(response, "+CCLK: …", …)
    let r := sscanf response "+CCLK: \"%d/%d/%d,%d:%d:%d%d\""
    if r.1 != 7 then clock_outcome.scanf_exit
    else
      let t : tm :=
        { tm_year := r.2.getD 0 0, tm_mon := r.2.getD 1 0, tm_mday := r.2.getD 2 0,
          tm_hour := r.2.getD 3 0, tm_min := r.2.getD 4 0, tm_sec := r.2.getD 5 0 }
      let offset := r.2.getD 6 0
      -- Most modems report some starting date way in the past when they have
      -- no date/time estimation.
      if t.tm_year < 14 then
        clock_outcome.returned 1 (some EINVAL) ts
      else
        -- Adjust values and perform conversion.
        let t := { t with tm_year := int32 (t.tm_year + (2000 - 1900)),
                          tm_mon := int32 (t.tm_mon - 1) }
        let unix_time := at_timegm t
        if unix_time == -1 then
          clock_outcome.returned (-1) (some EINVAL) ts
        else
          -- Remove the timezone shift.
          let unix_time := int64 (unix_time - int32 (15 * 60 * offset))
          -- All good. Return the result.
          clock_outcome.returned 0 none { tv_sec := unix_time, tv_nsec := 0 }

/-- The value of the variable `days` of `at_timegm` when the total of seconds
is computed from it: the statements of `at_timegm` up to `days += (day - 1)`. -/
def at_timegm_days (t : tm) : Int :=
  let year := int32 (t.tm_year + 1900)
  let ym := normalize_month year t.tm_mon
  let year := ym.1
  let month := ym.2
  let days : Int := 0
  let days := for_loop (year - 1970).toNat 1970 year
    (fun y d => int64 (d + (if is_leap_year y then 366 else 365))) days
  let days := for_loop (1970 - year).toNat year 1970
    (fun y d => int64 (d - (if is_leap_year y then 366 else 365))) days
  let days := for_loop month.toNat 0 month
    (fun m d => int64 (d + days_in_month year m)) days
  int64 (days + int32 (t.tm_mday - 1))

/-! ## `src/modem/telit2.c`: receiving from a socket

The function `at_command` comes from `attentive/at.h`, which is not among the
sources: the response it returns to each command is a parameter, a function of
the arguments of the command `AT#SRECV=<connid>,<chunk>`. The macro
`at_simple_scanf` is taken as in `telit2_op_clock_gettime`. -/

/-- The value of `EPROTO` in `<errno.h>`. -/
def EPROTO : Int := 71

/-- The C library function `strchr(s, c)`: the text from the first occurrence
of `c` on, or `none` (the `NULL` result) when `c` does not occur. -/
def strchr : List Char → Char → Option (List Char)
  | [], _ => none
  | x :: xs, c => if x == c then some (x :: xs) else strchr xs c

/-- A call `memcpy((char *)buffer + cnt, data, bytes)` of `telit2_socket_recv`:
the offset `cnt` in the buffer of the caller and the size `bytes`, as the `int`
that the driver holds. -/
structure buffer_copy where
  offset : Int
  size : Int
  deriving DecidableEq

/-- What a call of `telit2_socket_recv` does, with the copies it has made into
the buffer of the caller: `at_simple_scanf` leaves the function
(`scanf_exit`), or the function has issued a command for which the given
sequence of responses has no entry (`awaiting`), or it returns `ret`, having
set `errno` if `errno` is `some`. -/
inductive recv_outcome where
  | scanf_exit (copies : List buffer_copy)
  | awaiting (copies : List buffer_copy)
  | returned (ret : Int) (errno : Option Int) (copies : List buffer_copy)
  deriving DecidableEq

/-- The copies made up to an outcome. -/
def recv_outcome.copies : recv_outcome → List buffer_copy
  | recv_outcome.scanf_exit copies => copies
  | recv_outcome.awaiting copies => copies
  | recv_outcome.returned _ _ copies => copies

/-- The statements `int chunk = (int) length - cnt; if (chunk > 128) chunk =
128;` of `telit2_socket_recv`, with `length` already cast to `int`. -/
def recv_chunk (length cnt : Int) : Int :=
  let chunk := int32 (length - cnt)
  if chunk > 128 then 128 else chunk

/-- The loop `while (cnt < (int) length) { … }` of `telit2_socket_recv` and the
`return cnt;` after it, from the state `cnt` on, with `length` already cast to
`int`. Each iteration consumes one response; `copies` holds the copies made
so far. -/
def socket_recv_loop (connid length : Int) :
    List (Int → Int → Option (List Char)) → Int → List buffer_copy → recv_outcome
  | [], cnt, copies =>
    if cnt < length then recv_outcome.awaiting copies
    else recv_outcome.returned cnt none copies
  | reply :: replies, cnt, copies =>
    if cnt < length then
      let chunk := recv_chunk length cnt
      -- Perform the read.
      match reply connid chunk with
      | none => recv_outcome.returned (-1) none copies
      | some response =>
        -- Find the header line.
        let r := sscanf response "#SRECV: %*d,%d"
        if r.1 != 1 then recv_outcome.scanf_exit copies
        else
          let bytes := r.2.getD 0 0
          -- Bail out if out of data.
          if response == "+CME ERROR: activation failed".toList then
            recv_outcome.returned cnt none copies
          else
            -- Locate the payload.
            match strchr response '\n' with
            | none => recv_outcome.returned (-1) (some EPROTO) copies
            | some _ =>
              -- Copy payload to result buffer.
              socket_recv_loop connid length replies (int32 (cnt + bytes))
                (copies ++ [{ offset := cnt, size := bytes }])
    else recv_outcome.returned cnt none copies

/-- The function `static ssize_t telit2_socket_recv(struct cellular *modem, int
connid, void *buffer, size_t length, int flags)`, as a function of the
responses of the modem to the commands `AT#SRECV` it issues; `flags` is
unused. -/
def telit2_socket_recv (connid : Int) (length : Nat)
    (replies : List (Int → Int → Option (List Char))) : recv_outcome :=
  socket_recv_loop connid (int32 length) replies 0 []

/-- A copy stays within the offsets `[0, length)` of the buffer of the
caller. A negative size, which `memcpy` takes as a huge `size_t`, does not. -/
def copy_within (length : Int) (c : buffer_copy) : Prop :=
  0 ≤ c.offset ∧ 0 ≤ c.size ∧ c.offset + c.size ≤ length

/-- A response of the modem honours the request: whenever its header line
matches, the count it reports is between 0 and the number of bytes that the
command asked for. -/
def honours_request (reply : Int → Int → Option (List Char)) : Prop :=
  ∀ connid chunk response, reply connid chunk = some response →
    (sscanf response "#SRECV: %*d,%d").1 = 1 →
    0 ≤ (sscanf response "#SRECV: %*d,%d").2.getD 0 0 ∧
      (sscanf response "#SRECV: %*d,%d").2.getD 0 0 ≤ chunk

/-- A modem that holds the given response, with `n` bytes of payload, and
delivers it to a command that asks for at least `n` bytes; it lets any other
command time out. -/
def modem_holds (n : Int) (response : String) : Int → Int → Option (List Char) :=
  fun _ chunk => if n ≤ chunk then some response.toList else none

/-! ## Machine-integer and loop lemmas -/

theorem int32_of_range {x : Int} (h1 : -2147483648 ≤ x) (h2 : x < 2147483648) :
    int32 x = x := by
  unfold int32; omega

theorem int64_of_range {x : Int} (h1 : -9223372036854775808 ≤ x)
    (h2 : x < 9223372036854775808) : int64 x = x := by
  unfold int64; omega

theorem sum_from_bound (f : Int → Int) (B : Int)
    (hf : ∀ j, -B ≤ f j ∧ f j ≤ B) (i : Int) (n : Nat) :
    -(B * n) ≤ sum_from f i n ∧ sum_from f i n ≤ B * n := by
  induction n generalizing i with
  | zero => simp [sum_from]
  | succ n ih =>
    have h1 := ih (i + 1)
    have h2 := hf i
    simp only [sum_from]
    push_cast
    constructor <;> nlinarith

/-- An accumulating `int64_t` loop over an `int` counter computes the exact
sum as long as the counter stays in the `int` range and the accumulator stays
far from the `int64_t` bounds. -/
theorem for_loop_add (f : Int → Int) (hf : ∀ j, -366 ≤ f j ∧ f j ≤ 366)
    (n : Nat) (i stop acc : Int) (hn : i + n = stop)
    (hi : -2147483648 ≤ i) (hs : stop < 2147483648)
    (ha1 : -4611686018427387904 + 366 * n ≤ acc)
    (ha2 : acc + 366 * n ≤ 4611686018427387904) :
    for_loop n i stop (fun j d => int64 (d + f j)) acc = acc + sum_from f i n := by
  induction n generalizing i acc with
  | zero => simp [for_loop, sum_from]
  | succ n ih =>
    have hlt : i < stop := by omega
    have h2 := hf i
    simp only [for_loop, if_pos hlt, sum_from]
    rw [int32_of_range (by omega) (by omega), int64_of_range (by omega) (by omega)]
    rw [ih (i + 1) (acc + f i) (by push_cast at hn ⊢; omega) (by omega)
      (by push_cast at ha1 ⊢; omega) (by push_cast at ha2 ⊢; omega)]
    ring

/-- More fuel than `(stop - i).toNat` does not change the result of a loop. -/
theorem for_loop_fuel {α : Type} (body : Int → α → α) (stop : Int)
    (hs : stop < 2147483648) (fuel : Nat) (i : Int) (acc : α)
    (hi : -2147483648 ≤ i) (hfuel : (stop - i).toNat ≤ fuel) :
    for_loop fuel i stop body acc = for_loop (stop - i).toNat i stop body acc := by
  induction fuel generalizing i acc with
  | zero =>
    have : (stop - i).toNat = 0 := by omega
    rw [this]
  | succ fuel ih =>
    by_cases hlt : i < stop
    · obtain ⟨k, hk⟩ : ∃ k, (stop - i).toNat = k + 1 := ⟨(stop - i).toNat - 1, by omega⟩
      rw [hk]
      simp only [for_loop, if_pos hlt]
      rw [int32_of_range (by omega) (by omega)]
      have hk2 : (stop - (i + 1)).toNat = k := by omega
      rw [ih (i + 1) (body i acc) (by omega) (by omega), hk2]
    · have : (stop - i).toNat = 0 := by omega
      rw [this]
      simp [for_loop, hlt]


/-! ## Leap years and closed forms of the loops of `at_timegm` -/

theorem tmod_eq_zero_iff (y k : Int) : y.tmod k = 0 ↔ y % k = 0 := by
  constructor
  · intro h
    exact Int.emod_eq_zero_of_dvd (Int.dvd_of_tmod_eq_zero h)
  · intro h
    exact Int.tmod_eq_zero_of_dvd (Int.dvd_of_emod_eq_zero h)

theorem is_leap_year_iff (y : Int) : is_leap_year y = true ↔ gregorian_leap y := by
  simp [is_leap_year, gregorian_leap, tmod_eq_zero_iff]

theorem year_length_eq (y : Int) :
    year_length y = 365 + (leaps_before (y + 1) - leaps_before y) := by
  unfold year_length leaps_before
  by_cases h : is_leap_year y = true
  · rw [if_pos h]
    have := (is_leap_year_iff y).1 h
    unfold gregorian_leap at this
    omega
  · rw [if_neg h]
    have := mt (is_leap_year_iff y).2 h
    unfold gregorian_leap at this
    omega

theorem year_length_bound (y : Int) : -366 ≤ year_length y ∧ year_length y ≤ 366 := by
  unfold year_length; split <;> omega

theorem sum_year_length (i : Int) (n : Nat) :
    sum_from year_length i n = 365 * n + (leaps_before (i + n) - leaps_before i) := by
  induction n generalizing i with
  | zero => simp [sum_from]
  | succ n ih =>
    simp only [sum_from, ih, year_length_eq]
    push_cast
    have : i + 1 + (n : Int) = i + ((n : Int) + 1) := by ring
    rw [this]; ring

theorem days_in_month_bound (y m : Int) : -366 ≤ days_in_month y m ∧ days_in_month y m ≤ 366 := by
  unfold days_in_month
  split
  · omega
  · by_cases h : m.toNat < 12
    · have : ∀ k : Nat, k < 12 → (-366 : Int) ≤ days.getD k 0 ∧ days.getD k 0 ≤ 366 := by decide
      exact this _ h
    · have : days.getD m.toNat 0 = 0 := by
        apply List.getD_eq_default
        simp [days]; omega
      rw [this]; omega

theorem sum_days_in_month (y m : Int) (h0 : 0 ≤ m) (h1 : m ≤ 11) :
    sum_from (days_in_month y) 0 m.toNat = days_before_month (is_leap_year y) m := by
  have hm : m = 0 ∨ m = 1 ∨ m = 2 ∨ m = 3 ∨ m = 4 ∨ m = 5 ∨ m = 6 ∨ m = 7 ∨ m = 8 ∨
      m = 9 ∨ m = 10 ∨ m = 11 := by omega
  rcases hm with h | h | h | h | h | h | h | h | h | h | h | h <;> subst h <;>
    cases hl : is_leap_year y <;>
    simp [sum_from, days_in_month, days, days_before_month, hl]

/-- Closed form of the day count that `at_timegm` accumulates for year `Y`,
month index `m` and day of month `d`. -/
theorem civil_day_count (Y m d : Int) (h0 : 0 ≤ m) (h1 : m ≤ 11) :
    365 * (Y - 1970) + (leaps_before Y - leaps_before 1970)
      + days_before_month (is_leap_year Y) m + (d - 1) = days_from_civil Y (m + 1) d := by
  have hl : leaps_before 1970 = 477 := by decide
  rw [hl]
  have hm : m = 0 ∨ m = 1 ∨ m = 2 ∨ m = 3 ∨ m = 4 ∨ m = 5 ∨ m = 6 ∨ m = 7 ∨ m = 8 ∨
      m = 9 ∨ m = 10 ∨ m = 11 := by omega
  by_cases h : is_leap_year Y = true
  · have hg := (is_leap_year_iff Y).1 h
    unfold gregorian_leap at hg
    rcases hm with h | h | h | h | h | h | h | h | h | h | h | h <;> subst h <;>
      simp [days_before_month, days_from_civil, leaps_before, *] <;> omega
  · have hg := mt (is_leap_year_iff Y).2 h
    unfold gregorian_leap at hg
    simp only [Bool.not_eq_true] at h
    rcases hm with h | h | h | h | h | h | h | h | h | h | h | h <;> subst h <;>
      simp [days_before_month, days_from_civil, leaps_before, *] <;> omega

/-- The year loops of `at_timegm`: starting from `0`, the two loops together
leave the signed number of days between 1 January 1970 and 1 January `Y`. -/
theorem year_loops (Y : Int) (h1 : -2147483648 ≤ Y) (h2 : Y < 2147483648) :
    for_loop (1970 - Y).toNat Y 1970
        (fun y d => int64 (d - (if is_leap_year y then 366 else 365)))
        (for_loop (Y - 1970).toNat 1970 Y
          (fun y d => int64 (d + (if is_leap_year y then 366 else 365))) 0)
      = 365 * (Y - 1970) + (leaps_before Y - leaps_before 1970) := by
  have hup : (fun (y : Int) (d : Int) => int64 (d + (if is_leap_year y then 366 else 365)))
      = (fun j d => int64 (d + year_length j)) := rfl
  have hdown : (fun (y : Int) (d : Int) => int64 (d - (if is_leap_year y then 366 else 365)))
      = (fun j d => int64 (d + (fun k => -year_length k) j)) := by
    funext y d; simp [year_length, sub_eq_add_neg]
  rw [hup, hdown]
  by_cases h : 1970 ≤ Y
  · have e1 : (1970 - Y).toNat = 0 := by omega
    rw [e1]
    simp only [for_loop]
    rw [for_loop_add year_length year_length_bound _ _ _ _ (by omega) (by omega) h2
      (by omega) (by omega), sum_year_length]
    have : ((Y - 1970).toNat : Int) = Y - 1970 := by omega
    rw [this]
    have : (1970 : Int) + (Y - 1970) = Y := by ring
    rw [this]; ring
  · have e1 : (Y - 1970).toNat = 0 := by omega
    rw [e1]
    simp only [for_loop]
    have hb : ∀ j, -366 ≤ (fun k => -year_length k) j ∧ (fun k => -year_length k) j ≤ 366 := by
      intro j; have := year_length_bound j; simp only; omega
    rw [for_loop_add _ hb _ _ _ _ (by omega) h1 (by omega) (by omega) (by omega)]
    have hneg : ∀ (i : Int) (n : Nat),
        sum_from (fun k => -year_length k) i n = -sum_from year_length i n := by
      intro i n
      induction n generalizing i with
      | zero => simp [sum_from]
      | succ n ih => simp only [sum_from, ih]; ring
    rw [hneg, sum_year_length]
    have : ((1970 - Y).toNat : Int) = 1970 - Y := by omega
    rw [this]
    have : Y + (1970 - Y) = 1970 := by ring
    rw [this]; ring

/-- The value of `at_timegm` when the month needs no normalisation and no
`int` operation overflows: seconds of the accumulated day count plus the time
of day. -/
theorem at_timegm_month_in_range (t : tm)
    (hy1 : -2147483648 ≤ t.tm_year + 1900) (hy2 : t.tm_year + 1900 < 2147483648)
    (hm0 : 0 ≤ t.tm_mon) (hm1 : t.tm_mon ≤ 11)
    (hd1 : -2147483648 ≤ t.tm_mday - 1) (hd2 : t.tm_mday - 1 < 2147483648)
    (hh1 : -2147483648 ≤ t.tm_hour * 3600) (hh2 : t.tm_hour * 3600 < 2147483648)
    (hn1 : -2147483648 ≤ t.tm_min * 60) (hn2 : t.tm_min * 60 < 2147483648)
    (hs1 : -2147483648 ≤ t.tm_sec) (hs2 : t.tm_sec < 2147483648) :
    at_timegm t = 86400 * days_from_civil (t.tm_year + 1900) (t.tm_mon + 1) t.tm_mday
      + 3600 * t.tm_hour + 60 * t.tm_min + t.tm_sec := by
  have hnorm : normalize_month (t.tm_year + 1900) t.tm_mon = (t.tm_year + 1900, t.tm_mon) := by
    unfold normalize_month
    rw [if_neg (by omega), if_neg (by omega)]
  rw [← civil_day_count _ _ _ hm0 hm1]
  unfold at_timegm
  simp only []
  rw [int32_of_range hy1 hy2, hnorm]
  simp only []
  rw [year_loops _ hy1 hy2]
  have hlb : ∀ Y : Int, -2147483648 ≤ Y → Y < 2147483648 →
      -536870912 ≤ leaps_before Y ∧ leaps_before Y ≤ 536870912 := by
    intro Y a b; unfold leaps_before; omega
  have hl0 : leaps_before 1970 = 477 := by decide
  have hlY := hlb _ hy1 hy2
  have hsum := sum_days_in_month (t.tm_year + 1900) t.tm_mon hm0 hm1
  have hsb := sum_from_bound (days_in_month (t.tm_year + 1900)) 366
    (days_in_month_bound _) 0 t.tm_mon.toNat
  have hmn : ((t.tm_mon.toNat : Nat) : Int) = t.tm_mon := by omega
  rw [hmn] at hsb
  rw [for_loop_add (days_in_month (t.tm_year + 1900)) (days_in_month_bound _) _ _ _ _
    (by omega) (by omega) (by omega) (by omega) (by omega), hsum]
  rw [hsum] at hsb
  rw [int32_of_range hd1 hd2, int32_of_range hh1 hh2, int32_of_range hn1 hn2]
  rw [hl0]
  generalize leaps_before (t.tm_year + 1900) = L at hlY ⊢
  generalize days_before_month (is_leap_year (t.tm_year + 1900)) t.tm_mon = M at hsb ⊢
  rw [int64_of_range (x := 365 * (t.tm_year + 1900 - 1970) + (L - 477) + M
    + (t.tm_mday - 1)) (by omega) (by omega)]
  generalize hD : 365 * (t.tm_year + 1900 - 1970) + (L - 477) + M
    + (t.tm_mday - 1) = D
  have hD1 : -1000000000000 ≤ D := by omega
  have hD2 : D ≤ 1000000000000 := by omega
  rw [int64_of_range (x := D * 86400) (by omega) (by omega)]
  rw [int64_of_range (x := D * 86400 + t.tm_hour * 3600) (by omega) (by omega)]
  rw [int64_of_range (x := D * 86400 + t.tm_hour * 3600 + t.tm_min * 60) (by omega) (by omega)]
  rw [int64_of_range (by omega) (by omega)]
  rw [← hD]
  ring

/-! ## Sanity of the reference day count -/

theorem days_from_civil_epoch : days_from_civil 1970 1 1 = 0 := by decide

theorem days_from_civil_succ_day (y m d : Int) :
    days_from_civil y m (d + 1) = days_from_civil y m d + 1 := by
  simp only [days_from_civil]; omega

theorem days_from_civil_jan1 (Y : Int) :
    days_from_civil Y 1 1 = 365 * (Y - 1970) + (leaps_before Y - 477) := by
  have h := civil_day_count Y 0 1 (by omega) (by omega)
  have hl : leaps_before 1970 = 477 := by decide
  have hz : days_before_month (is_leap_year Y) 0 = 0 := by simp [days_before_month]
  rw [hl, hz] at h
  simp only [zero_add] at h
  omega

theorem days_from_civil_jan1_mono (Y : Int) (h : Y ≤ 1970) : days_from_civil Y 1 1 ≤ 0 := by
  rw [days_from_civil_jan1]
  unfold leaps_before
  omega

theorem days_from_civil_jan1_succ (Y : Int) :
    days_from_civil (Y + 1) 1 1 = days_from_civil Y 1 1 + year_length Y := by
  rw [days_from_civil_jan1, days_from_civil_jan1, year_length_eq]
  ring

/-- The last day of a month is followed by the first day of the next one. -/
theorem days_from_civil_month_end (Y m : Int) (h0 : 1 ≤ m) (h1 : m ≤ 11) :
    days_from_civil Y m (gregorian_month_length Y m + 1) = days_from_civil Y (m + 1) 1 := by
  have e1 := civil_day_count Y (m - 1) (gregorian_month_length Y m + 1) (by omega) (by omega)
  have e2 := civil_day_count Y m 1 (by omega) (by omega)
  rw [show m - 1 + 1 = m by ring] at e1
  rw [← e1, ← e2]
  have hm : m = 1 ∨ m = 2 ∨ m = 3 ∨ m = 4 ∨ m = 5 ∨ m = 6 ∨ m = 7 ∨ m = 8 ∨
      m = 9 ∨ m = 10 ∨ m = 11 := by omega
  by_cases hl : is_leap_year Y = true
  · have hg := (is_leap_year_iff Y).1 hl
    rcases hm with h | h | h | h | h | h | h | h | h | h | h <;> subst h <;>
      simp [days_before_month, gregorian_month_length, hl, hg] <;> omega
  · have hg := mt (is_leap_year_iff Y).2 hl
    simp only [Bool.not_eq_true] at hl
    rcases hm with h | h | h | h | h | h | h | h | h | h | h <;> subst h <;>
      simp [days_before_month, gregorian_month_length, hl, hg] <;> omega

/-- The day 31 December is followed by 1 January of the next year. -/
theorem days_from_civil_year_end (Y : Int) :
    days_from_civil Y 12 (31 + 1) = days_from_civil (Y + 1) 1 1 := by
  have e1 := civil_day_count Y 11 (31 + 1) (by omega) (by omega)
  rw [days_from_civil_jan1_succ, days_from_civil_jan1]
  have hl : leaps_before 1970 = 477 := by decide
  rw [hl] at e1
  rw [show (11 : Int) + 1 = 12 by rfl] at e1
  rw [← e1]
  unfold year_length
  cases is_leap_year Y <;> simp [days_before_month] <;> ring

/-- A valid date lies before 1 January of the following year. -/
theorem days_from_civil_lt_next_year (Y m d : Int) (h0 : 1 ≤ m) (h1 : m ≤ 12)
    (hd : d ≤ gregorian_month_length Y m) :
    days_from_civil Y m d < days_from_civil (Y + 1) 1 1 := by
  have e1 := civil_day_count Y (m - 1) d (by omega) (by omega)
  rw [show m - 1 + 1 = m by ring] at e1
  rw [days_from_civil_jan1_succ, days_from_civil_jan1, ← e1]
  have hl : leaps_before 1970 = 477 := by decide
  rw [hl]
  unfold year_length
  have hm : m = 1 ∨ m = 2 ∨ m = 3 ∨ m = 4 ∨ m = 5 ∨ m = 6 ∨ m = 7 ∨ m = 8 ∨
      m = 9 ∨ m = 10 ∨ m = 11 ∨ m = 12 := by omega
  by_cases hl : is_leap_year Y = true
  · have hg := (is_leap_year_iff Y).1 hl
    rcases hm with h | h | h | h | h | h | h | h | h | h | h | h <;> subst h <;>
      simp [days_before_month, gregorian_month_length, hl, hg] at hd ⊢ <;> omega
  · have hg := mt (is_leap_year_iff Y).2 hl
    simp only [Bool.not_eq_true] at hl
    rcases hm with h | h | h | h | h | h | h | h | h | h | h | h <;> subst h <;>
      simp [days_before_month, gregorian_month_length, hl, hg] at hd ⊢ <;> omega

theorem gregorian_month_length_le (y m : Int) : gregorian_month_length y m ≤ 31 := by
  unfold gregorian_month_length
  split_ifs <;> omega

/-! ## `at_timegm` on valid dates -/

/-- C1: `at_timegm` is a `timegm` equivalent on valid dates. For every
broken-down time with year `Y = tm_year + 1900` in 1970..9999, `tm_mon` in
0..11, `tm_mday` in 1..(length of that month in year `Y`), `tm_hour` in 0..23,
`tm_min` and `tm_sec` in 0..59, `at_timegm` returns
`86400*D + 3600*tm_hour + 60*tm_min + tm_sec`, where `D` is the number of days
from 1970-01-01 to that date in the proleptic Gregorian calendar. -/
theorem at_timegm_valid_date (t : tm)
    (hY : 1970 ≤ t.tm_year + 1900 ∧ t.tm_year + 1900 ≤ 9999)
    (hmon : 0 ≤ t.tm_mon ∧ t.tm_mon ≤ 11)
    (hday : 1 ≤ t.tm_mday ∧
      t.tm_mday ≤ gregorian_month_length (t.tm_year + 1900) (t.tm_mon + 1))
    (hhour : 0 ≤ t.tm_hour ∧ t.tm_hour ≤ 23)
    (hmin : 0 ≤ t.tm_min ∧ t.tm_min ≤ 59)
    (hsec : 0 ≤ t.tm_sec ∧ t.tm_sec ≤ 59) :
    at_timegm t = 86400 * days_from_civil (t.tm_year + 1900) (t.tm_mon + 1) t.tm_mday
      + 3600 * t.tm_hour + 60 * t.tm_min + t.tm_sec := by
  have hl := gregorian_month_length_le (t.tm_year + 1900) (t.tm_mon + 1)
  exact at_timegm_month_in_range t (by omega) (by omega) hmon.1 hmon.2 (by omega) (by omega)
    (by omega) (by omega) (by omega) (by omega) (by omega) (by omega)

/-- C1, the test of `tests/test-timegm.c`: 2038-01-19 03:14:07 is `0x7fffffff`. -/
theorem at_timegm_valid_date_witness :
    at_timegm ⟨7, 14, 3, 19, 0, 138⟩
        = 86400 * days_from_civil 2038 1 19 + 3600 * 3 + 60 * 14 + 7 ∧
      86400 * days_from_civil 2038 1 19 + 3600 * 3 + 60 * 14 + 7 = 2147483647 :=
  ⟨at_timegm_valid_date ⟨7, 14, 3, 19, 0, 138⟩ (by decide) (by decide) (by decide)
    (by decide) (by decide) (by decide), by decide⟩

/-- C10: `at_timegm` is a `timegm` equivalent before the epoch. For every valid
broken-down time with year `Y = tm_year + 1900` in 1..1969, `at_timegm` returns
`86400*D + 3600*tm_hour + 60*tm_min + tm_sec`, where `D < 0` is the
proleptic-Gregorian day offset of the date from 1970-01-01, and that value is
negative. -/
theorem at_timegm_before_epoch (t : tm)
    (hY : 1 ≤ t.tm_year + 1900 ∧ t.tm_year + 1900 ≤ 1969)
    (hmon : 0 ≤ t.tm_mon ∧ t.tm_mon ≤ 11)
    (hday : 1 ≤ t.tm_mday ∧
      t.tm_mday ≤ gregorian_month_length (t.tm_year + 1900) (t.tm_mon + 1))
    (hhour : 0 ≤ t.tm_hour ∧ t.tm_hour ≤ 23)
    (hmin : 0 ≤ t.tm_min ∧ t.tm_min ≤ 59)
    (hsec : 0 ≤ t.tm_sec ∧ t.tm_sec ≤ 59) :
    at_timegm t = 86400 * days_from_civil (t.tm_year + 1900) (t.tm_mon + 1) t.tm_mday
      + 3600 * t.tm_hour + 60 * t.tm_min + t.tm_sec ∧
    days_from_civil (t.tm_year + 1900) (t.tm_mon + 1) t.tm_mday < 0 ∧
    at_timegm t < 0 := by
  have hl := gregorian_month_length_le (t.tm_year + 1900) (t.tm_mon + 1)
  have heq := at_timegm_month_in_range t (by omega) (by omega) hmon.1 hmon.2 (by omega)
    (by omega) (by omega) (by omega) (by omega) (by omega) (by omega) (by omega)
  have h1 := days_from_civil_lt_next_year (t.tm_year + 1900) (t.tm_mon + 1) t.tm_mday
    (by omega) (by omega) hday.2
  have h2 := days_from_civil_jan1_mono (t.tm_year + 1900 + 1) (by omega)
  refine ⟨heq, by omega, ?_⟩
  rw [heq]; omega

/-- C10, the examples: 1969-12-31 23:59:59 gives `-1` and 1969-01-01 00:00:00
gives `-31536000`. -/
theorem at_timegm_before_epoch_witness :
    at_timegm ⟨59, 59, 23, 31, 11, 69⟩ = -1 ∧ at_timegm ⟨0, 0, 0, 1, 0, 69⟩ = -31536000 :=
  ⟨(at_timegm_before_epoch ⟨59, 59, 23, 31, 11, 69⟩ (by decide) (by decide) (by decide)
      (by decide) (by decide) (by decide)).1.trans (by decide),
   (at_timegm_before_epoch ⟨0, 0, 0, 1, 0, 69⟩ (by decide) (by decide) (by decide)
      (by decide) (by decide) (by decide)).1.trans (by decide)⟩

/-! ## Month normalisation -/

/-- The normalisation statement of `at_timegm` computes floor division and
remainder of the month by 12 whenever its `int` operations do not overflow. -/
theorem normalize_month_eq (Y m : Int)
    (hm1 : -2147483636 ≤ m) (hm2 : m < 2147483648)
    (hn1 : -2147483648 ≤ Y + m / 12) (hn2 : Y + m / 12 < 2147483648) :
    normalize_month Y m = (Y + m / 12, m % 12) := by
  unfold normalize_month
  by_cases h1 : m > 11
  · rw [if_pos h1, Int.tdiv_eq_ediv (by omega) (by omega),
      Int.tmod_eq_emod (by omega) (by omega), int32_of_range hn1 hn2]
  · rw [if_neg h1]
    by_cases h2 : m < 0
    · rw [if_pos h2]
      simp only []
      rw [int32_of_range (x := 11 - m) (by omega) (by omega),
        Int.tdiv_eq_ediv (by omega) (by omega),
        int32_of_range (x := 12 * ((11 - m) / 12)) (by omega) (by omega),
        int32_of_range (x := m + 12 * ((11 - m) / 12)) (by omega) (by omega),
        int32_of_range (x := Y - (11 - m) / 12) (by omega) (by omega)]
      congr 1 <;> omega
    · rw [if_neg h2]
      congr 1 <;> omega

/-- C6: `at_timegm` normalises an out-of-range month the way `timegm` does.
For every broken-down time whose `tm_mon` is any integer `m` for which the
`int` arithmetic of the normalisation does not overflow, `at_timegm` gives the
same result as for the time with `tm_year` replaced by
`tm_year + floor(m / 12)` and `tm_mon` replaced by `m mod 12` (in 0..11), all
other fields equal. -/
theorem at_timegm_normalizes_month (t : tm)
    (hm1 : -2147483636 ≤ t.tm_mon) (hm2 : t.tm_mon < 2147483648)
    (hY1 : -2147483648 ≤ t.tm_year + 1900) (hY2 : t.tm_year + 1900 < 2147483648)
    (hn1 : -2147483648 ≤ t.tm_year + 1900 + t.tm_mon / 12)
    (hn2 : t.tm_year + 1900 + t.tm_mon / 12 < 2147483648) :
    at_timegm t =
      at_timegm { t with tm_year := t.tm_year + t.tm_mon / 12, tm_mon := t.tm_mon % 12 } := by
  have e1 := normalize_month_eq (t.tm_year + 1900) t.tm_mon hm1 hm2 hn1 hn2
  have e2 := normalize_month_eq (t.tm_year + t.tm_mon / 12 + 1900) (t.tm_mon % 12)
    (by omega) (by omega) (by omega) (by omega)
  have e3 : t.tm_mon % 12 / 12 = 0 := by omega
  have e4 : t.tm_mon % 12 % 12 = t.tm_mon % 12 := by omega
  rw [e3, e4] at e2
  unfold at_timegm
  simp only []
  rw [int32_of_range hY1 hY2, int32_of_range (x := t.tm_year + t.tm_mon / 12 + 1900)
    (by omega) (by omega), e1, e2]
  have e5 : t.tm_year + t.tm_mon / 12 + 1900 + 0 = t.tm_year + 1900 + t.tm_mon / 12 := by ring
  rw [e5]

/-- C6, the examples: month 12 of year 2000 is month 0 of 2001, month -1 is
month 11 of 1999 and month -13 is month 11 of 1998. -/
theorem at_timegm_normalizes_month_witness :
    at_timegm ⟨5, 6, 7, 8, 12, 100⟩ = at_timegm ⟨5, 6, 7, 8, 0, 101⟩ ∧
    at_timegm ⟨5, 6, 7, 8, -1, 100⟩ = at_timegm ⟨5, 6, 7, 8, 11, 99⟩ ∧
    at_timegm ⟨5, 6, 7, 8, -13, 100⟩ = at_timegm ⟨5, 6, 7, 8, 11, 98⟩ :=
  ⟨at_timegm_normalizes_month ⟨5, 6, 7, 8, 12, 100⟩ (by decide) (by decide) (by decide)
      (by decide) (by decide) (by decide),
   at_timegm_normalizes_month ⟨5, 6, 7, 8, -1, 100⟩ (by decide) (by decide) (by decide)
      (by decide) (by decide) (by decide),
   at_timegm_normalizes_month ⟨5, 6, 7, 8, -13, 100⟩ (by decide) (by decide) (by decide)
      (by decide) (by decide) (by decide)⟩

/-! ## The payload-length encoding -/

/-- A tag below 256 or-ed with a value shifted left by 8 is their sum. -/
theorem bit_or_shl (tag n : Int) (ht0 : 0 ≤ tag) (ht1 : tag < 256)
    (hn0 : -8388608 ≤ n) (hn1 : n < 8388608) :
    bit_or tag (shl n 8) = n * 256 + tag := by
  unfold bit_or shl
  rw [int32_of_range (x := n * 2 ^ 8) (by omega) (by omega)]
  obtain ⟨a, ha⟩ : ∃ a : Nat, to_u32 (n * 2 ^ 8) = 2 ^ 8 * a ∧
      ((a : Int) = n ∨ (a : Int) = n + 16777216) := by
    refine ⟨(n % 16777216).toNat, ?_, ?_⟩
    · unfold to_u32; omega
    · omega
  obtain ⟨b, hb⟩ : ∃ b : Nat, to_u32 tag = b ∧ (b : Int) = tag := by
    refine ⟨tag.toNat, ?_, ?_⟩
    · unfold to_u32; omega
    · omega
  have hb8 : b < 2 ^ 8 := by omega
  rw [ha.1, hb.1, Nat.lor_comm, ← Nat.mul_add_lt_is_or hb8 a]
  unfold int32
  push_cast
  omega

/-- Masking with `0xff` gives the remainder modulo 256. -/
theorem bit_and_mask (v : Int) :
    bit_and v _AT_RESPONSE_TYPE_MASK = v % 256 := by
  unfold bit_and _AT_RESPONSE_TYPE_MASK
  have e : to_u32 255 = 2 ^ 8 - 1 := by decide
  rw [e, Nat.and_pow_two_sub_one_eq_mod]
  unfold to_u32 int32
  omega

theorem shr_eq_div (v : Int) (k : Nat) : shr v k = v / 2 ^ k := by
  unfold shr
  rw [Int.shiftRight_eq_div_pow]
  norm_cast

/-- Decoding of an encoded payload length with a tag below 256. -/
theorem encoding_roundtrip (tag n : Int) (ht0 : 0 ≤ tag) (ht1 : tag < 256)
    (hn0 : -8388608 ≤ n) (hn1 : n < 8388608) :
    bit_and (bit_or tag (shl n 8)) _AT_RESPONSE_TYPE_MASK = tag ∧
      shr (bit_or tag (shl n 8)) 8 = n := by
  rw [bit_or_shl tag n ht0 ht1 hn0 hn1, bit_and_mask, shr_eq_div]
  constructor <;> omega

/-- C2: the payload-length encoding round-trips. For every count `n` with
`0 ≤ n < 2^23`, `v = AT_RESPONSE_RAWDATA_FOLLOWS(n)` satisfies
`(v & _AT_RESPONSE_TYPE_MASK) = _AT_RESPONSE_RAWDATA_FOLLOWS` and
`(v >> 8) = n`, and likewise for `AT_RESPONSE_HEXDATA_FOLLOWS(n)` with
`_AT_RESPONSE_HEXDATA_FOLLOWS`. -/
theorem payload_length_roundtrip (n : Int) (h0 : 0 ≤ n) (h1 : n < 2 ^ 23) :
    (bit_and (AT_RESPONSE_RAWDATA_FOLLOWS n) _AT_RESPONSE_TYPE_MASK
        = _AT_RESPONSE_RAWDATA_FOLLOWS ∧
      shr (AT_RESPONSE_RAWDATA_FOLLOWS n) 8 = n) ∧
    (bit_and (AT_RESPONSE_HEXDATA_FOLLOWS n) _AT_RESPONSE_TYPE_MASK
        = _AT_RESPONSE_HEXDATA_FOLLOWS ∧
      shr (AT_RESPONSE_HEXDATA_FOLLOWS n) 8 = n) := by
  have h2 : n < 8388608 := by norm_num at h1; exact h1
  exact ⟨encoding_roundtrip _AT_RESPONSE_RAWDATA_FOLLOWS n (by decide) (by decide)
      (by omega) h2,
    encoding_roundtrip _AT_RESPONSE_HEXDATA_FOLLOWS n (by decide) (by decide) (by omega) h2⟩

/-- C2 at the count 5 and at the largest count `2^23 - 1`. -/
theorem payload_length_roundtrip_witness :
    ((bit_and (AT_RESPONSE_RAWDATA_FOLLOWS 5) _AT_RESPONSE_TYPE_MASK
        = _AT_RESPONSE_RAWDATA_FOLLOWS ∧
      shr (AT_RESPONSE_RAWDATA_FOLLOWS 5) 8 = 5) ∧
    (bit_and (AT_RESPONSE_HEXDATA_FOLLOWS 5) _AT_RESPONSE_TYPE_MASK
        = _AT_RESPONSE_HEXDATA_FOLLOWS ∧
      shr (AT_RESPONSE_HEXDATA_FOLLOWS 5) 8 = 5)) ∧
    shr (AT_RESPONSE_HEXDATA_FOLLOWS 8388607) 8 = 8388607 :=
  ⟨payload_length_roundtrip 5 (by decide) (by decide),
   (payload_length_roundtrip 8388607 (by decide) (by decide)).2.2⟩

/-! ## `sscanf` on decimal numerals -/

theorem digitChar_spec : ∀ k : Nat, k < 10 →
    (Nat.digitChar k).isDigit = true ∧ (Nat.digitChar k).toNat - 48 = k ∧
    is_space (Nat.digitChar k) = false ∧ (Nat.digitChar k == '-') = false ∧
    (Nat.digitChar k == '+') = false := by
  decide

theorem toDigitsCore_append (fuel n : Nat) (ds : List Char) :
    Nat.toDigitsCore 10 fuel n ds = Nat.toDigitsCore 10 fuel n [] ++ ds := by
  induction fuel generalizing n ds with
  | zero => simp [Nat.toDigitsCore]
  | succ fuel ih =>
    simp only [Nat.toDigitsCore]
    split
    · simp
    · rw [ih (n / 10) (Nat.digitChar (n % 10) :: ds), ih (n / 10) [Nat.digitChar (n % 10)]]
      simp

/-- Reading back the decimal digits of `n` yields `n`. -/
theorem take_digits_toDigitsCore (fuel n : Nat) (ds : List Char) (h : n < fuel) :
    take_digits (Nat.toDigitsCore 10 fuel n ds) 0 = take_digits ds n := by
  induction fuel generalizing n ds with
  | zero => omega
  | succ fuel ih =>
    have hd := digitChar_spec (n % 10) (Nat.mod_lt _ (by decide))
    simp only [Nat.toDigitsCore]
    split
    · rename_i h0
      simp only [take_digits, hd.1, if_true, hd.2.1]
      congr 1; omega
    · rename_i h0
      rw [ih (n / 10) _ (by omega)]
      simp only [take_digits, hd.1, if_true, hd.2.1]
      congr 1; omega

/-- The decimal numeral of `n` starts with a digit. -/
theorem toDigitsCore_head (fuel n : Nat) (ds : List Char) (h : n < fuel) :
    ∃ k cs, k < 10 ∧ Nat.toDigitsCore 10 fuel n ds = Nat.digitChar k :: cs := by
  induction fuel generalizing n ds with
  | zero => omega
  | succ fuel ih =>
    simp only [Nat.toDigitsCore]
    split
    · exact ⟨n % 10, ds, Nat.mod_lt _ (by decide), rfl⟩
    · exact ih (n / 10) _ (by omega)

theorem take_digits_stop (rest : List Char) (h : no_digit_ahead rest) (acc : Nat) :
    take_digits rest acc = (acc, rest) := by
  cases rest with
  | nil => rfl
  | cons c cs => simp [take_digits, h c cs rfl]

theorem scan_int_nat (n : Nat) (rest : List Char) (h : no_digit_ahead rest) :
    scan_int (Nat.toDigits 10 n ++ rest) = Conv.ok (int32 n) rest := by
  obtain ⟨k, cs, hk, hcs⟩ := toDigitsCore_head (n + 1) n rest (by omega)
  have hd := digitChar_spec k hk
  have e : Nat.toDigits 10 n ++ rest = Nat.toDigitsCore 10 (n + 1) n rest := by
    rw [toDigitsCore_append]; rfl
  have ht := take_digits_toDigitsCore (n + 1) n rest (by omega)
  rw [take_digits_stop rest h] at ht
  rw [e]
  unfold scan_int
  rw [hcs]
  simp only [skip_space, hd.2.2.1, hd.2.2.2.1, hd.2.2.2.2, Bool.false_eq_true, if_false,
    Bool.or_self, hd.1, if_true]
  rw [← hcs, ht]

theorem scan_int_neg (n : Nat) (rest : List Char) (h : no_digit_ahead rest) :
    scan_int ('-' :: (Nat.toDigits 10 n ++ rest)) = Conv.ok (int32 (-(n : Int))) rest := by
  obtain ⟨k, cs, hk, hcs⟩ := toDigitsCore_head (n + 1) n rest (by omega)
  have hd := digitChar_spec k hk
  have e : Nat.toDigits 10 n ++ rest = Nat.toDigitsCore 10 (n + 1) n rest := by
    rw [toDigitsCore_append]; rfl
  have ht := take_digits_toDigitsCore (n + 1) n rest (by omega)
  rw [take_digits_stop rest h] at ht
  rw [e]
  unfold scan_int
  have hs : is_space '-' = false := by decide
  simp only [skip_space, hs, Bool.false_eq_true, if_false]
  rw [hcs]
  simp only [beq_self_eq_true, Bool.true_or, if_true, hd.1]
  rw [← hcs, ht]

theorem toString_nat_toList (n : Nat) : (toString n).toList = Nat.toDigits 10 n := rfl

theorem toString_int_toList (c : Int) :
    (toString c).toList = if c < 0 then '-' :: Nat.toDigits 10 c.natAbs
      else Nat.toDigits 10 c.natAbs := by
  cases c with
  | ofNat m =>
    have : ¬ ((Int.ofNat m) < 0) := by simp
    rw [if_neg this]; rfl
  | negSucc m =>
    have : (Int.negSucc m) < 0 := Int.negSucc_lt_zero m
    rw [if_pos this]; rfl

/-- The conversion `%d` reads a decimal integer written by `toString`. -/
theorem scan_int_toString (c : Int) (rest : List Char) (h : no_digit_ahead rest) :
    scan_int ((toString c).toList ++ rest) = Conv.ok (int32 c) rest := by
  rw [toString_int_toList]
  by_cases hc : c < 0
  · rw [if_pos hc, List.cons_append, scan_int_neg _ _ h]
    congr 2; omega
  · rw [if_neg hc, scan_int_nat _ _ h]
    congr 2; omega

theorem skip_space_idem (s : List Char) : skip_space (skip_space s) = skip_space s := by
  induction s with
  | nil => rfl
  | cons c cs ih =>
    by_cases h : is_space c = true
    · simp only [skip_space, h, if_true, ih]
    · simp only [skip_space, h, Bool.false_eq_true, if_false]

theorem scan_int_skip_space (s : List Char) : scan_int (skip_space s) = scan_int s := by
  unfold scan_int
  rw [skip_space_idem]

theorem no_digit_ahead_nil : no_digit_ahead [] := by
  intro c cs h; cases h

theorem no_digit_ahead_cons (c : Char) (cs : List Char) (h : c.isDigit = false) :
    no_digit_ahead (c :: cs) := by
  intro d ds e
  cases e
  exact h

/-! ## The payload scanners of the Telit driver -/

/-- The header line `#SRECV: <c>,<n>` is scanned to the value `n`. -/
theorem sscanf_srecv (c n : Int) :
    sscanf ("#SRECV: " ++ toString c ++ "," ++ toString n).toList "#SRECV: %*d,%d"
      = (1, [int32 n]) := by
  have hf : parse_format "#SRECV: %*d,%d".toList =
      [Directive.lit '#', Directive.lit 'S', Directive.lit 'R', Directive.lit 'E',
       Directive.lit 'C', Directive.lit 'V', Directive.lit ':', Directive.space,
       Directive.int false, Directive.lit ',', Directive.int true] := by decide
  have hl : ("#SRECV: " ++ toString c ++ "," ++ toString n).toList =
      '#' :: 'S' :: 'R' :: 'E' :: 'C' :: 'V' :: ':' :: ' ' ::
        ((toString c).toList ++ (',' :: ((toString n).toList ++ []))) := by
    simp [String.toList]
  have h1 := scan_int_toString c (',' :: ((toString n).toList ++ []))
    (no_digit_ahead_cons _ _ (by decide))
  have h2 := scan_int_toString n [] no_digit_ahead_nil
  have hsp : is_space ' ' = true := by decide
  unfold sscanf
  rw [hf, hl]
  simp only [sscanf_run, beq_self_eq_true, if_true, skip_space, hsp, scan_int_skip_space, h1,
    h2, Bool.false_eq_true, if_false, List.nil_append, List.length_cons, List.length_nil]
  rfl

/-- The header line `#FTPRECV: <n>` is scanned to the value `n`. -/
theorem sscanf_ftprecv (n : Int) :
    sscanf ("#FTPRECV: " ++ toString n).toList "#FTPRECV: %d" = (1, [int32 n]) := by
  have hf : parse_format "#FTPRECV: %d".toList =
      [Directive.lit '#', Directive.lit 'F', Directive.lit 'T', Directive.lit 'P',
       Directive.lit 'R', Directive.lit 'E', Directive.lit 'C', Directive.lit 'V',
       Directive.lit ':', Directive.space, Directive.int true] := by decide
  have hl : ("#FTPRECV: " ++ toString n).toList =
      '#' :: 'F' :: 'T' :: 'P' :: 'R' :: 'E' :: 'C' :: 'V' :: ':' :: ' ' ::
        ((toString n).toList ++ []) := by
    simp [String.toList]
  have h2 := scan_int_toString n [] no_digit_ahead_nil
  have hsp : is_space ' ' = true := by decide
  unfold sscanf
  rw [hf, hl]
  simp only [sscanf_run, beq_self_eq_true, if_true, skip_space, hsp, scan_int_skip_space,
    h2, Bool.false_eq_true, if_false, List.nil_append, List.length_cons, List.length_nil]
  rfl

/-- C3: the Telit receive scanner announces the payload length of the header
line. For every line of the form `#SRECV: <c>,<n>` with `c` and `n` decimal
integers and `0 ≤ n < 2^23`, `scanner_srecv` returns
`AT_RESPONSE_RAWDATA_FOLLOWS(n)`, whose tag is `_AT_RESPONSE_RAWDATA_FOLLOWS`
and whose count is `n`; for every line on which `sscanf` does not match the
pattern `#SRECV: %*d,%d` (its return value is not 1) it returns
`AT_RESPONSE_UNKNOWN`. -/
theorem scanner_srecv_header :
    (∀ c n : Int, 0 ≤ n → n < 2 ^ 23 →
      scanner_srecv ("#SRECV: " ++ toString c ++ "," ++ toString n).toList
          = AT_RESPONSE_RAWDATA_FOLLOWS n ∧
        bit_and (AT_RESPONSE_RAWDATA_FOLLOWS n) _AT_RESPONSE_TYPE_MASK
          = _AT_RESPONSE_RAWDATA_FOLLOWS ∧
        shr (AT_RESPONSE_RAWDATA_FOLLOWS n) 8 = n) ∧
    (∀ line : List Char, (sscanf line "#SRECV: %*d,%d").1 ≠ 1 →
      scanner_srecv line = AT_RESPONSE_UNKNOWN) := by
  constructor
  · intro c n h0 h1
    have h2 : n < 8388608 := by norm_num at h1; exact h1
    refine ⟨?_, encoding_roundtrip _AT_RESPONSE_RAWDATA_FOLLOWS n (by decide) (by decide)
      (by omega) h2⟩
    unfold scanner_srecv
    simp only [sscanf_srecv, beq_self_eq_true, if_true, List.getD_cons_zero]
    rw [int32_of_range (by omega) (by omega)]
  · intro line h
    unfold scanner_srecv
    simp only [beq_iff_eq, h, if_false]

/-- C3 at the line `#SRECV: 1,5`: the scanner returns `RawDataFollows(5)`,
and an unrelated line is left to the default classifier. -/
theorem scanner_srecv_header_witness :
    scanner_srecv "#SRECV: 1,5".toList = AT_RESPONSE_RAWDATA_FOLLOWS 5 ∧
    shr (scanner_srecv "#SRECV: 1,5".toList) 8 = 5 ∧
    scanner_srecv "+CSQ: 15,99".toList = AT_RESPONSE_UNKNOWN :=
  ⟨(scanner_srecv_header.1 1 5 (by decide) (by decide)).1,
   by decide,
   scanner_srecv_header.2 "+CSQ: 15,99".toList (by decide)⟩

/-- The tag of an announced payload survives any count, in range or not. -/
theorem rawdata_follows_tag (n : Int) :
    bit_and (AT_RESPONSE_RAWDATA_FOLLOWS n) _AT_RESPONSE_TYPE_MASK
      = _AT_RESPONSE_RAWDATA_FOLLOWS := by
  have e : shl n 8 = shl (int32 (n * 2 ^ 8) / 256) 8 := by
    unfold shl int32; omega
  have hj : -8388608 ≤ int32 (n * 2 ^ 8) / 256 ∧ int32 (n * 2 ^ 8) / 256 < 8388608 := by
    unfold int32; omega
  unfold AT_RESPONSE_RAWDATA_FOLLOWS
  rw [e]
  exact (encoding_roundtrip _AT_RESPONSE_RAWDATA_FOLLOWS _ (by decide) (by decide)
    hj.1 hj.2).1

/-- C7 fails as stated: on the line `#SRECV: 1,-5` the scanner announces a
payload whose count is negative, and on the line `#FTPRECV: 8388608` the
count announced is not the number written in the line. -/
theorem scanner_count_counterexample :
    ¬ (scanner_srecv "#SRECV: 1,-5".toList = AT_RESPONSE_UNKNOWN ∨
      (bit_and (scanner_srecv "#SRECV: 1,-5".toList) _AT_RESPONSE_TYPE_MASK
          = _AT_RESPONSE_RAWDATA_FOLLOWS ∧
        0 ≤ shr (scanner_srecv "#SRECV: 1,-5".toList) 8)) ∧
    ¬ (scanner_ftprecv "#FTPRECV: 8388608".toList = AT_RESPONSE_UNKNOWN ∨
      (bit_and (scanner_ftprecv "#FTPRECV: 8388608".toList) _AT_RESPONSE_TYPE_MASK
          = _AT_RESPONSE_RAWDATA_FOLLOWS ∧
        shr (scanner_ftprecv "#FTPRECV: 8388608".toList) 8 = 8388608)) := by
  decide

/-- C7, amended: for every input line, the value returned by `scanner_srecv`
and by `scanner_ftprecv` is either `AT_RESPONSE_UNKNOWN` or a value whose low
8 bits are `_AT_RESPONSE_RAWDATA_FOLLOWS`; when the number `n` written in the
line satisfies `-2^23 ≤ n < 2^23`, the high bits (`value >> 8`) are equal to
`n`, hence a non-negative byte count exactly when `n` is non-negative. -/
theorem scanner_count_amended :
    (∀ line : List Char,
      (scanner_srecv line = AT_RESPONSE_UNKNOWN ∨
        bit_and (scanner_srecv line) _AT_RESPONSE_TYPE_MASK = _AT_RESPONSE_RAWDATA_FOLLOWS) ∧
      (scanner_ftprecv line = AT_RESPONSE_UNKNOWN ∨
        bit_and (scanner_ftprecv line) _AT_RESPONSE_TYPE_MASK
          = _AT_RESPONSE_RAWDATA_FOLLOWS)) ∧
    (∀ c n : Int, -2 ^ 23 ≤ n → n < 2 ^ 23 →
      shr (scanner_srecv ("#SRECV: " ++ toString c ++ "," ++ toString n).toList) 8 = n ∧
      shr (scanner_ftprecv ("#FTPRECV: " ++ toString n).toList) 8 = n) := by
  constructor
  · intro line
    constructor
    · unfold scanner_srecv
      simp only []
      split
      · exact Or.inr (rawdata_follows_tag _)
      · exact Or.inl rfl
    · unfold scanner_ftprecv
      simp only []
      split
      · exact Or.inr (rawdata_follows_tag _)
      · exact Or.inl rfl
  · intro c n h0 h1
    have h2 : -8388608 ≤ n := by norm_num at h0; exact h0
    have h3 : n < 8388608 := by norm_num at h1; exact h1
    have hr := (encoding_roundtrip _AT_RESPONSE_RAWDATA_FOLLOWS n (by decide) (by decide)
      h2 h3).2
    constructor
    · unfold scanner_srecv
      simp only [sscanf_srecv, beq_self_eq_true, if_true, List.getD_cons_zero]
      rw [int32_of_range (by omega) (by omega)]
      exact hr
    · unfold scanner_ftprecv
      simp only [sscanf_ftprecv, beq_self_eq_true, if_true, List.getD_cons_zero]
      rw [int32_of_range (by omega) (by omega)]
      exact hr

/-- C7, amended, at the lines `#SRECV: 1,-5` and `#FTPRECV: -5`: the count
announced is `-5`, the number written in the line. -/
theorem scanner_count_amended_witness :
    shr (scanner_srecv "#SRECV: 1,-5".toList) 8 = -5 ∧
    shr (scanner_ftprecv "#FTPRECV: -5".toList) 8 = -5 := by
  have h := scanner_count_amended.2 1 (-5) (by decide) (by decide)
  have e1 : ("#SRECV: " ++ toString (1 : Int) ++ "," ++ toString (-5 : Int)).toList
      = "#SRECV: 1,-5".toList := rfl
  have e2 : ("#FTPRECV: " ++ toString (-5 : Int)).toList = "#FTPRECV: -5".toList := rfl
  rw [e1, e2] at h
  exact h

/-! ## Line classification of the Telit driver -/

/-- The table lookup is true exactly when some entry is a prefix of the line. -/
theorem at_prefix_in_table_iff (line : List Char) (table : List String) :
    at_prefix_in_table line table = true ↔ ∃ p ∈ table, p.toList <+: line := by
  induction table with
  | nil => simp [at_prefix_in_table]
  | cons p table ih =>
    simp only [at_prefix_in_table, List.mem_cons, exists_eq_or_imp]
    by_cases h : p.toList.isPrefixOf line = true
    · simp only [h, if_true, true_iff]
      exact Or.inl (List.isPrefixOf_iff_prefix.1 h)
    · have h2 : ¬ p.toList <+: line := fun hp => h (List.isPrefixOf_iff_prefix.2 hp)
      simp only [h, Bool.false_eq_true, if_false, ih, h2, false_or]

/-- C4: the Telit line-classification hook is exactly a prefix test. For every
line, `scan_line` returns `AT_RESPONSE_URC` if and only if the line starts with
`SRING: ` or with `#AGPSRING: `, it returns `AT_RESPONSE_UNKNOWN` for every
other line, and it never returns any other classification. -/
theorem scan_line_prefix_test (line : List Char) :
    (scan_line line = AT_RESPONSE_URC ↔
      ((∃ rest, line = "SRING: ".toList ++ rest) ∨
        (∃ rest, line = "#AGPSRING: ".toList ++ rest))) ∧
    (¬ ((∃ rest, line = "SRING: ".toList ++ rest) ∨
        (∃ rest, line = "#AGPSRING: ".toList ++ rest)) →
      scan_line line = AT_RESPONSE_UNKNOWN) ∧
    (scan_line line = AT_RESPONSE_URC ∨ scan_line line = AT_RESPONSE_UNKNOWN) := by
  have key : at_prefix_in_table line telit2_urc_responses = true ↔
      ((∃ rest, line = "SRING: ".toList ++ rest) ∨
        (∃ rest, line = "#AGPSRING: ".toList ++ rest)) := by
    rw [at_prefix_in_table_iff]
    simp only [telit2_urc_responses, List.mem_cons, List.mem_singleton, exists_eq_or_imp,
      exists_eq_left, List.not_mem_nil, false_and, exists_false, or_false]
    constructor
    · rintro (⟨r, hr⟩ | ⟨r, hr⟩)
      · exact Or.inl ⟨r, hr.symm⟩
      · exact Or.inr ⟨r, hr.symm⟩
    · rintro (⟨r, hr⟩ | ⟨r, hr⟩)
      · exact Or.inl ⟨r, hr.symm⟩
      · exact Or.inr ⟨r, hr.symm⟩
  have hne : AT_RESPONSE_UNKNOWN ≠ AT_RESPONSE_URC := by decide
  unfold scan_line
  by_cases h : at_prefix_in_table line telit2_urc_responses = true
  · simp only [h, if_true, true_iff]
    exact ⟨key.1 h, fun hn => absurd (key.1 h) hn, Or.inl trivial⟩
  · simp only [h, Bool.false_eq_true, if_false]
    exact ⟨⟨fun e => absurd e hne, fun hp => absurd (key.2 hp) h⟩, fun _ => trivial,
      Or.inr trivial⟩

/-! ## Reading the clock of the Telit modem -/

/-- C5 fails on the code: for the reply `+CCLK: "04/01/01,00:00:00+00"` (year
below 14) `telit2_op_clock_gettime` returns `1`, not `-1`, with
`errno = EINVAL` and `*ts` unchanged. -/
theorem clock_gettime_returns_one (ts : timespec) :
    telit2_op_clock_gettime (some "+CCLK: \"04/01/01,00:00:00+00\"".toList) ts
      = clock_outcome.returned 1 (some EINVAL) ts := by
  rfl

theorem int32_range (x : Int) : -2147483648 ≤ int32 x ∧ int32 x < 2147483648 := by
  unfold int32; omega

/-- A loop that adds at most 366 in absolute value per iteration moves the
accumulator by at most `366 * fuel`. -/
theorem for_loop_bound (f : Int → Int) (hf : ∀ j, -366 ≤ f j ∧ f j ≤ 366)
    (n : Nat) (i stop acc : Int)
    (ha1 : -4611686018427387904 + 366 * n ≤ acc)
    (ha2 : acc + 366 * n ≤ 4611686018427387904) :
    acc - 366 * n ≤ for_loop n i stop (fun j d => int64 (d + f j)) acc ∧
      for_loop n i stop (fun j d => int64 (d + f j)) acc ≤ acc + 366 * n := by
  induction n generalizing i acc with
  | zero => simp [for_loop]
  | succ n ih =>
    have h2 := hf i
    simp only [for_loop]
    push_cast at ha1 ha2 ⊢
    split
    · rw [int64_of_range (by omega) (by omega)]
      have := ih (int32 (i + 1)) (acc + f i) (by omega) (by omega)
      omega
    · omega

theorem normalize_month_range (Y m : Int) (h1 : -2147483648 ≤ Y) (h2 : Y < 2147483648) :
    -2147483648 ≤ (normalize_month Y m).1 ∧ (normalize_month Y m).1 < 2147483648 ∧
      (normalize_month Y m).2 < 2147483648 := by
  unfold normalize_month
  by_cases c1 : m > 11
  · rw [if_pos c1]
    have := int32_range (Y + m.tdiv 12)
    have e := Int.tmod_eq_emod (a := m) (b := 12) (by omega) (by omega)
    simp only []
    rw [e]
    omega
  · rw [if_neg c1]
    by_cases c2 : m < 0
    · rw [if_pos c2]
      simp only []
      have := int32_range (Y - (int32 (11 - m)).tdiv 12)
      have := int32_range (m + int32 (12 * (int32 (11 - m)).tdiv 12))
      omega
    · rw [if_neg c2]
      simp only []
      omega

/-- The value of `at_timegm` is far from the bounds of `time_t`, whatever the
broken-down time. -/
theorem at_timegm_bound (t : tm) (hs1 : -2147483648 ≤ t.tm_sec)
    (hs2 : t.tm_sec < 2147483648) :
    -1000000000000000000 ≤ at_timegm t ∧ at_timegm t ≤ 1000000000000000000 := by
  have hup : (fun (y : Int) (d : Int) => int64 (d + (if is_leap_year y then 366 else 365)))
      = (fun j d => int64 (d + year_length j)) := rfl
  have hdown : (fun (y : Int) (d : Int) => int64 (d - (if is_leap_year y then 366 else 365)))
      = (fun j d => int64 (d + (fun k => -year_length k) j)) := by
    funext y d; simp [year_length, sub_eq_add_neg]
  have hb : ∀ j, -366 ≤ (fun k => -year_length k) j ∧ (fun k => -year_length k) j ≤ 366 := by
    intro j; have := year_length_bound j; simp only; omega
  have hr := normalize_month_range (int32 (t.tm_year + 1900)) t.tm_mon
    (int32_range _).1 (int32_range _).2
  unfold at_timegm
  simp only []
  rw [hup, hdown]
  generalize normalize_month (int32 (t.tm_year + 1900)) t.tm_mon = ym at hr ⊢
  obtain ⟨year, month⟩ := ym
  simp only [] at hr ⊢
  have hn1 : (((year - 1970).toNat : Nat) : Int) ≤ 2147483648 := by omega
  have hn2 : (((1970 - year).toNat : Nat) : Int) ≤ 2147485618 := by omega
  have hn3 : ((month.toNat : Nat) : Int) ≤ 2147483648 := by omega
  have b1 := for_loop_bound year_length year_length_bound (year - 1970).toNat 1970 year 0
    (by omega) (by omega)
  generalize for_loop (year - 1970).toNat 1970 year (fun j d => int64 (d + year_length j)) 0
    = d1 at b1 ⊢
  have b2 := for_loop_bound _ hb (1970 - year).toNat year 1970 d1 (by omega) (by omega)
  generalize for_loop (1970 - year).toNat year 1970
    (fun j d => int64 (d + (fun k => -year_length k) j)) d1 = d2 at b2 ⊢
  have b3 := for_loop_bound (days_in_month year) (days_in_month_bound year) month.toNat 0
    month d2 (by omega) (by omega)
  generalize for_loop month.toNat 0 month (fun m d => int64 (d + days_in_month year m)) d2
    = d3 at b3 ⊢
  have r1 := int32_range (t.tm_mday - 1)
  have r2 := int32_range (t.tm_hour * 3600)
  have r3 := int32_range (t.tm_min * 60)
  generalize int32 (t.tm_mday - 1) = a1 at r1 ⊢
  generalize int32 (t.tm_hour * 3600) = a2 at r2 ⊢
  generalize int32 (t.tm_min * 60) = a3 at r3 ⊢
  rw [int64_of_range (x := d3 + a1) (by omega) (by omega)]
  rw [int64_of_range (x := (d3 + a1) * 86400) (by omega) (by omega)]
  rw [int64_of_range (x := (d3 + a1) * 86400 + a2) (by omega) (by omega)]
  rw [int64_of_range (x := (d3 + a1) * 86400 + a2 + a3) (by omega) (by omega)]
  rw [int64_of_range (by omega) (by omega)]
  omega

/-- Every value `sscanf` stores through a `%d` fits an `int`. -/
theorem scan_int_range (s : List Char) (v : Int) (rest : List Char)
    (h : scan_int s = Conv.ok v rest) : -2147483648 ≤ v ∧ v < 2147483648 := by
  unfold scan_int at h
  split at h
  · cases h
  · simp only [] at h
    split at h
    · cases h
    · split at h
      · cases h
        exact int32_range _
      · cases h

theorem sscanf_run_range (ds : List Directive) (s : List Char) (conv : Bool) (out : List Int)
    (hout : ∀ v ∈ out, -2147483648 ≤ v ∧ v < 2147483648) :
    ∀ v ∈ (sscanf_run ds s conv out).2, -2147483648 ≤ v ∧ v < 2147483648 := by
  induction ds generalizing s conv out with
  | nil => simpa [sscanf_run] using hout
  | cons d ds ih =>
    cases d with
    | space => simpa [sscanf_run] using ih _ _ _ hout
    | lit c =>
      cases s with
      | nil => simpa [sscanf_run] using hout
      | cons x xs =>
        simp only [sscanf_run]
        split
        · exact ih _ _ _ hout
        · exact hout
    | int assign =>
      simp only [sscanf_run]
      split
      · exact hout
      · exact hout
      · rename_i v rest hv
        apply ih
        split
        · intro w hw
          rcases List.mem_append.1 hw with h | h
          · exact hout w h
          · rw [List.mem_singleton.1 h]
            exact scan_int_range _ _ _ hv
        · exact hout

theorem sscanf_range (s : List Char) (format : String) :
    ∀ v ∈ (sscanf s format).2, -2147483648 ≤ v ∧ v < 2147483648 :=
  sscanf_run_range _ _ _ _ (by simp)

/-- Past the year check, `telit2_op_clock_gettime` stores the converted time
unless the conversion is `-1`: for a reply with fields `yy/MM/dd,hh:mm:ss` and
offset `q` where `yy ≥ 14` and `yy + 100`, `MM - 1` and `900*q` fit an `int`,
a conversion other than `-1` makes it return 0 with `tv_nsec = 0` and
`tv_sec` the conversion less `900*q`. -/
theorem clock_gettime_of_conversion (response : List Char) (ts : timespec)
    (yy MM dd hh mm ss q : Int)
    (hscan : sscanf response "+CCLK: \"%d/%d/%d,%d:%d:%d%d\""
      = (7, [yy, MM, dd, hh, mm, ss, q]))
    (hyy : 14 ≤ yy) (hyy2 : yy + 100 < 2147483648) (hMM : -2147483648 ≤ MM - 1)
    (hq1 : -2147483648 ≤ 900 * q) (hq2 : 900 * q < 2147483648)
    (hne : at_timegm ⟨ss, mm, hh, dd, MM - 1, yy + 100⟩ ≠ -1) :
    telit2_op_clock_gettime (some response) ts
      = clock_outcome.returned 0 none
          ⟨at_timegm ⟨ss, mm, hh, dd, MM - 1, yy + 100⟩ - 900 * q, 0⟩ := by
  have hr := sscanf_range response "+CCLK: \"%d/%d/%d,%d:%d:%d%d\""
  rw [hscan] at hr
  have hMM2 := hr MM (by simp)
  have hss := hr ss (by simp)
  have hb := at_timegm_bound ⟨ss, mm, hh, dd, MM - 1, yy + 100⟩ hss.1 hss.2
  unfold telit2_op_clock_gettime
  simp only [hscan, bne_self_eq_false, Bool.false_eq_true, if_false, List.getD_cons_zero,
    List.getD_cons_succ]
  rw [if_neg (by omega)]
  have e1 : (2000 : Int) - 1900 = 100 := by rfl
  have e2 : (15 : Int) * 60 * q = 900 * q := by ring
  rw [e1, e2, int32_of_range (x := yy + 100) (by omega) hyy2,
    int32_of_range (x := MM - 1) hMM (by omega), int32_of_range (x := 900 * q) hq1 hq2]
  have hne2 : (at_timegm ⟨ss, mm, hh, dd, MM - 1, yy + 100⟩ == -1) = false := by
    simpa using hne
  rw [hne2]
  simp only [Bool.false_eq_true, if_false]
  rw [int64_of_range (by omega) (by omega)]

/-! ## The day count of `at_timegm` -/

/-- The result of `at_timegm` is the total of seconds of its day count and of
the time of day. -/
theorem at_timegm_total (t : tm) :
    at_timegm t = int64 (int64 (int64 (int64 (at_timegm_days t * 86400)
      + int32 (t.tm_hour * 3600)) + int32 (t.tm_min * 60)) + t.tm_sec) := rfl

/-- The day count of `at_timegm` is the day number of the date with the month
normalised, whenever the `int` arithmetic on year and month does not overflow. -/
theorem at_timegm_days_civil (t : tm)
    (hm1 : -2147483636 ≤ t.tm_mon) (hm2 : t.tm_mon < 2147483648)
    (hY1 : -2147483648 ≤ t.tm_year + 1900) (hY2 : t.tm_year + 1900 < 2147483648)
    (hn1 : -2147483648 ≤ t.tm_year + 1900 + t.tm_mon / 12)
    (hn2 : t.tm_year + 1900 + t.tm_mon / 12 < 2147483648)
    (hd1 : -2147483648 ≤ t.tm_mday - 1) (hd2 : t.tm_mday - 1 < 2147483648) :
    at_timegm_days t
      = days_from_civil (t.tm_year + 1900 + t.tm_mon / 12) (t.tm_mon % 12 + 1) t.tm_mday := by
  have hm0 : 0 ≤ t.tm_mon % 12 := by omega
  have hm11 : t.tm_mon % 12 ≤ 11 := by omega
  rw [← civil_day_count _ _ _ hm0 hm11]
  unfold at_timegm_days
  simp only []
  rw [int32_of_range hY1 hY2, normalize_month_eq _ _ hm1 hm2 hn1 hn2]
  simp only []
  rw [year_loops _ hn1 hn2]
  have hlY : -536870912 ≤ leaps_before (t.tm_year + 1900 + t.tm_mon / 12) ∧
      leaps_before (t.tm_year + 1900 + t.tm_mon / 12) ≤ 536870912 := by
    unfold leaps_before; omega
  have hl0 : leaps_before 1970 = 477 := by decide
  have hsum := sum_days_in_month (t.tm_year + 1900 + t.tm_mon / 12) (t.tm_mon % 12) hm0 hm11
  have hsb := sum_from_bound (days_in_month (t.tm_year + 1900 + t.tm_mon / 12)) 366
    (days_in_month_bound _) 0 (t.tm_mon % 12).toNat
  have hmn : (((t.tm_mon % 12).toNat : Nat) : Int) = t.tm_mon % 12 := by omega
  rw [hmn] at hsb
  rw [for_loop_add (days_in_month (t.tm_year + 1900 + t.tm_mon / 12)) (days_in_month_bound _)
    _ _ _ _ (by omega) (by omega) (by omega) (by omega) (by omega), hsum]
  rw [hsum] at hsb
  rw [int32_of_range hd1 hd2, hl0]
  generalize leaps_before (t.tm_year + 1900 + t.tm_mon / 12) = L at hlY ⊢
  generalize days_before_month (is_leap_year (t.tm_year + 1900 + t.tm_mon / 12))
    (t.tm_mon % 12) = M at hsb ⊢
  rw [int64_of_range (by omega) (by omega)]

/-! ## Overflowing day of month -/

/-- The month lengths of the source are those of the Gregorian calendar. -/
theorem days_in_month_gregorian (Y m : Int) (h0 : 0 ≤ m) (h1 : m ≤ 11) :
    days_in_month Y m = gregorian_month_length Y (m + 1) := by
  have hm : m = 0 ∨ m = 1 ∨ m = 2 ∨ m = 3 ∨ m = 4 ∨ m = 5 ∨ m = 6 ∨ m = 7 ∨ m = 8 ∨
      m = 9 ∨ m = 10 ∨ m = 11 := by omega
  by_cases hl : is_leap_year Y = true
  · have hg := (is_leap_year_iff Y).1 hl
    rcases hm with h | h | h | h | h | h | h | h | h | h | h | h <;> subst h <;>
      simp [days_in_month, days, gregorian_month_length, hl, hg]
  · have hg := mt (is_leap_year_iff Y).2 hl
    simp only [Bool.not_eq_true] at hl
    rcases hm with h | h | h | h | h | h | h | h | h | h | h | h <;> subst h <;>
      simp [days_in_month, days, gregorian_month_length, hl, hg]

/-- C11: `at_timegm` rolls an overflowing day of month into the next month,
consistently with its own month and year lengths. For every year
`Y = tm_year + 1900` and every month `m` in 0..11, `at_timegm` with
`tm_mon = m` and `tm_mday = days_in_month(Y, m) + 1` equals `at_timegm` with
`tm_mon = m + 1` and `tm_mday = 1`, all other fields equal; December rolls into
January of year `Y + 1`. The year `Y`, and `Y + 1` for December, fit an `int`. -/
theorem at_timegm_day_rollover (t : tm)
    (hm0 : 0 ≤ t.tm_mon) (hm1 : t.tm_mon ≤ 11)
    (hY1 : -2147483648 ≤ t.tm_year + 1900) (hY2 : t.tm_year + 1900 < 2147483648)
    (hDec : t.tm_mon = 11 → t.tm_year + 1900 + 1 < 2147483648) :
    at_timegm { t with tm_mday := days_in_month (t.tm_year + 1900) t.tm_mon + 1 }
      = at_timegm { t with tm_mon := t.tm_mon + 1, tm_mday := 1 } := by
  have hlen := days_in_month_bound (t.tm_year + 1900) t.tm_mon
  have hg := days_in_month_gregorian (t.tm_year + 1900) t.tm_mon hm0 hm1
  have e1 := at_timegm_days_civil
    { t with tm_mday := days_in_month (t.tm_year + 1900) t.tm_mon + 1 }
    (by simp only []; omega) (by simp only []; omega) hY1 hY2
    (by simp only []; omega) (by simp only []; omega)
    (by simp only []; omega) (by simp only []; omega)
  have e2 := at_timegm_days_civil { t with tm_mon := t.tm_mon + 1, tm_mday := 1 }
    (by simp only []; omega) (by simp only []; omega) hY1 hY2
    (by simp only []; omega) (by simp only []; omega)
    (by simp only []; omega) (by simp only []; omega)
  simp only [] at e1 e2
  have hdays : at_timegm_days
      { t with tm_mday := days_in_month (t.tm_year + 1900) t.tm_mon + 1 }
      = at_timegm_days { t with tm_mon := t.tm_mon + 1, tm_mday := 1 } := by
    rw [e1, e2, hg]
    by_cases hd : t.tm_mon = 11
    · rw [hd]
      have h31 : gregorian_month_length (t.tm_year + 1900) (11 + 1) = 31 := by
        simp [gregorian_month_length]
      rw [h31]
      have ey := days_from_civil_year_end (t.tm_year + 1900)
      have a1 : ((11 : Int) + 1) / 12 = 1 := by decide
      have a2 : ((11 : Int) + 1) % 12 + 1 = 1 := by decide
      have a3 : (11 : Int) / 12 = 0 := by decide
      have a4 : (11 : Int) % 12 + 1 = 12 := by decide
      rw [a1, a2, a3, a4, add_zero, ey]
    · have a1 : (t.tm_mon + 1) / 12 = 0 := by omega
      have a2 : (t.tm_mon + 1) % 12 + 1 = t.tm_mon + 1 + 1 := by omega
      have a3 : t.tm_mon / 12 = 0 := by omega
      have a4 : t.tm_mon % 12 + 1 = t.tm_mon + 1 := by omega
      rw [a1, a2, a3, a4, add_zero]
      exact days_from_civil_month_end (t.tm_year + 1900) (t.tm_mon + 1) (by omega) (by omega)
  rw [at_timegm_total, at_timegm_total, hdays]

/-- C11 at 29 February 2000 (leap), 28 February 2001 and 31 December 2001: the
day after is 1 March, 1 March and 1 January 2002. -/
theorem at_timegm_day_rollover_witness :
    at_timegm ⟨5, 6, 7, 30, 1, 100⟩ = at_timegm ⟨5, 6, 7, 1, 2, 100⟩ ∧
    at_timegm ⟨5, 6, 7, 29, 1, 101⟩ = at_timegm ⟨5, 6, 7, 1, 2, 101⟩ ∧
    at_timegm ⟨5, 6, 7, 32, 11, 101⟩ = at_timegm ⟨5, 6, 7, 1, 12, 101⟩ :=
  ⟨at_timegm_day_rollover ⟨5, 6, 7, 0, 1, 100⟩ (by decide) (by decide) (by decide)
      (by decide) (by decide),
   at_timegm_day_rollover ⟨5, 6, 7, 0, 1, 101⟩ (by decide) (by decide) (by decide)
      (by decide) (by decide),
   at_timegm_day_rollover ⟨5, 6, 7, 0, 11, 101⟩ (by decide) (by decide) (by decide)
      (by decide) (by decide)⟩

/-! ## The value `-1` of `at_timegm` -/

theorem days_before_month_nonneg (l : Bool) (m : Int) (h0 : 0 ≤ m) (h1 : m ≤ 11) :
    0 ≤ days_before_month l m ∧ days_before_month l m ≤ 335 := by
  have hm : m = 0 ∨ m = 1 ∨ m = 2 ∨ m = 3 ∨ m = 4 ∨ m = 5 ∨ m = 6 ∨ m = 7 ∨ m = 8 ∨
      m = 9 ∨ m = 10 ∨ m = 11 := by omega
  rcases hm with h | h | h | h | h | h | h | h | h | h | h | h <;> subst h <;>
    cases l <;> simp [days_before_month]

/-- The value of `at_timegm` is the number of seconds from the epoch to the
instant that the broken-down time denotes, the month being normalised, whenever
no `int` operation overflows. -/
theorem at_timegm_instant (t : tm)
    (hm1 : -2147483636 ≤ t.tm_mon) (hm2 : t.tm_mon < 2147483648)
    (hY1 : -2147483648 ≤ t.tm_year + 1900) (hY2 : t.tm_year + 1900 < 2147483648)
    (hn1 : -2147483648 ≤ t.tm_year + 1900 + t.tm_mon / 12)
    (hn2 : t.tm_year + 1900 + t.tm_mon / 12 < 2147483648)
    (hd1 : -2147483648 ≤ t.tm_mday - 1) (hd2 : t.tm_mday - 1 < 2147483648)
    (hh1 : -2147483648 ≤ t.tm_hour * 3600) (hh2 : t.tm_hour * 3600 < 2147483648)
    (hi1 : -2147483648 ≤ t.tm_min * 60) (hi2 : t.tm_min * 60 < 2147483648)
    (hs1 : -2147483648 ≤ t.tm_sec) (hs2 : t.tm_sec < 2147483648) :
    at_timegm t
      = 86400 * days_from_civil (t.tm_year + 1900 + t.tm_mon / 12) (t.tm_mon % 12 + 1)
          t.tm_mday
        + 3600 * t.tm_hour + 60 * t.tm_min + t.tm_sec := by
  have hm0 : 0 ≤ t.tm_mon % 12 := by omega
  have hm11 : t.tm_mon % 12 ≤ 11 := by omega
  have hc := civil_day_count (t.tm_year + 1900 + t.tm_mon / 12) (t.tm_mon % 12) t.tm_mday
    hm0 hm11
  have hl0 : leaps_before 1970 = 477 := by decide
  have hlY : -536870912 ≤ leaps_before (t.tm_year + 1900 + t.tm_mon / 12) ∧
      leaps_before (t.tm_year + 1900 + t.tm_mon / 12) ≤ 536870912 := by
    unfold leaps_before; omega
  have hM := days_before_month_nonneg (is_leap_year (t.tm_year + 1900 + t.tm_mon / 12))
    (t.tm_mon % 12) hm0 hm11
  rw [hl0] at hc
  rw [at_timegm_total, at_timegm_days_civil t hm1 hm2 hY1 hY2 hn1 hn2 hd1 hd2,
    int32_of_range hh1 hh2, int32_of_range hi1 hi2]
  generalize leaps_before (t.tm_year + 1900 + t.tm_mon / 12) = L at hlY hc
  generalize days_before_month (is_leap_year (t.tm_year + 1900 + t.tm_mon / 12))
    (t.tm_mon % 12) = M at hM hc
  generalize days_from_civil (t.tm_year + 1900 + t.tm_mon / 12) (t.tm_mon % 12 + 1)
    t.tm_mday = D at hc ⊢
  have hD1 : -1000000000000 ≤ D := by omega
  have hD2 : D ≤ 1000000000000 := by omega
  rw [int64_of_range (x := D * 86400) (by omega) (by omega)]
  rw [int64_of_range (x := D * 86400 + t.tm_hour * 3600) (by omega) (by omega)]
  rw [int64_of_range (x := D * 86400 + t.tm_hour * 3600 + t.tm_min * 60) (by omega) (by omega)]
  rw [int64_of_range (by omega) (by omega)]
  ring

/-- A date of the year 2014 or later lies at least 16071 days after the epoch. -/
theorem days_from_civil_from_2014 (Y m d : Int) (hY : 2014 ≤ Y) (h0 : 0 ≤ m) (h1 : m ≤ 11)
    (hd : 1 ≤ d) : 16071 ≤ days_from_civil Y (m + 1) d := by
  have hc := civil_day_count Y m d h0 h1
  have hl0 : leaps_before 1970 = 477 := by decide
  have hM := days_before_month_nonneg (is_leap_year Y) m h0 h1
  have hL : 488 ≤ leaps_before Y := by unfold leaps_before; omega
  rw [hl0] at hc
  omega

/-- The result of `at_timegm` depends on `tm_year` through the 32-bit value
of `tm_year + 1900` only. -/
theorem at_timegm_year_wrap (t : tm) :
    at_timegm { t with tm_year := t.tm_year - 4294967296 } = at_timegm t := by
  have e : int32 (t.tm_year - 4294967296 + 1900) = int32 (t.tm_year + 1900) := by
    unfold int32; omega
  unfold at_timegm
  simp only [e]

/-- A date of a year before 0, with a day of month up to 31, lies more than
two days before the epoch. -/
theorem days_from_civil_before_0 (Y m d : Int) (hY : Y ≤ 0) (h0 : 0 ≤ m) (h1 : m ≤ 11)
    (hd : d ≤ 31) : days_from_civil Y (m + 1) d < -2 := by
  have hc := civil_day_count Y m d h0 h1
  have hl0 : leaps_before 1970 = 477 := by decide
  have hM := days_before_month_nonneg (is_leap_year Y) m h0 h1
  have hL : leaps_before Y ≤ 0 := by unfold leaps_before; omega
  rw [hl0] at hc
  omega

/-- C13: the failure branch `unix_time == -1` of `telit2_op_clock_gettime` is
unreachable for calendar-valid modem times. For every broken-down time with
`tm_year ≥ 114`, `tm_mon` in 0..11, `tm_mday` in 1..31, `tm_hour` in 0..23,
`tm_min` and `tm_sec` in 0..59, `at_timegm` returns a value `≥ 1388534400`
(2014-01-01 00:00:00 UTC) when `tm_year + 1900` is an `int`, and never `-1`
for any `int` value of `tm_year`. `at_timegm` has no error value of its own:
whenever no `int` operation overflows, it returns `-1` only for an input that
denotes the instant 1969-12-31 23:59:59. -/
theorem at_timegm_from_2014 :
    (∀ t : tm, 114 ≤ t.tm_year → t.tm_year + 1900 < 2147483648 →
      0 ≤ t.tm_mon → t.tm_mon ≤ 11 → 1 ≤ t.tm_mday → t.tm_mday ≤ 31 →
      0 ≤ t.tm_hour → t.tm_hour ≤ 23 → 0 ≤ t.tm_min → t.tm_min ≤ 59 →
      0 ≤ t.tm_sec → t.tm_sec ≤ 59 →
      1388534400 ≤ at_timegm t) ∧
    (∀ t : tm, 114 ≤ t.tm_year → t.tm_year < 2147483648 →
      0 ≤ t.tm_mon → t.tm_mon ≤ 11 → 1 ≤ t.tm_mday → t.tm_mday ≤ 31 →
      0 ≤ t.tm_hour → t.tm_hour ≤ 23 → 0 ≤ t.tm_min → t.tm_min ≤ 59 →
      0 ≤ t.tm_sec → t.tm_sec ≤ 59 →
      at_timegm t ≠ -1) ∧
    (∀ t : tm, -2147483636 ≤ t.tm_mon → t.tm_mon < 2147483648 →
      -2147483648 ≤ t.tm_year + 1900 → t.tm_year + 1900 < 2147483648 →
      -2147483648 ≤ t.tm_year + 1900 + t.tm_mon / 12 →
      t.tm_year + 1900 + t.tm_mon / 12 < 2147483648 →
      -2147483648 ≤ t.tm_mday - 1 → t.tm_mday - 1 < 2147483648 →
      -2147483648 ≤ t.tm_hour * 3600 → t.tm_hour * 3600 < 2147483648 →
      -2147483648 ≤ t.tm_min * 60 → t.tm_min * 60 < 2147483648 →
      -2147483648 ≤ t.tm_sec → t.tm_sec < 2147483648 →
      at_timegm t = -1 →
      86400 * days_from_civil (t.tm_year + 1900 + t.tm_mon / 12) (t.tm_mon % 12 + 1)
          t.tm_mday + 3600 * t.tm_hour + 60 * t.tm_min + t.tm_sec
        = 86400 * days_from_civil 1969 12 31 + 3600 * 23 + 60 * 59 + 59) := by
  have bound : ∀ t : tm, 114 ≤ t.tm_year → t.tm_year + 1900 < 2147483648 →
      0 ≤ t.tm_mon → t.tm_mon ≤ 11 → 1 ≤ t.tm_mday → t.tm_mday ≤ 31 →
      0 ≤ t.tm_hour → t.tm_hour ≤ 23 → 0 ≤ t.tm_min → t.tm_min ≤ 59 →
      0 ≤ t.tm_sec → t.tm_sec ≤ 59 → 1388534400 ≤ at_timegm t := by
    intro t hy hy2 hm0 hm1 hd0 hd1 hh0 hh1 hi0 hi1 hs0 hs1
    have e := at_timegm_month_in_range t (by omega) hy2 hm0 hm1 (by omega) (by omega)
      (by omega) (by omega) (by omega) (by omega) (by omega) (by omega)
    have hD := days_from_civil_from_2014 (t.tm_year + 1900) t.tm_mon t.tm_mday (by omega)
      hm0 hm1 hd0
    rw [e]
    omega
  refine ⟨bound, ?_, ?_⟩
  · intro t hy hy2 hm0 hm1 hd0 hd1 hh0 hh1 hi0 hi1 hs0 hs1
    by_cases hfit : t.tm_year + 1900 < 2147483648
    · have := bound t hy hfit hm0 hm1 hd0 hd1 hh0 hh1 hi0 hi1 hs0 hs1
      omega
    · rw [← at_timegm_year_wrap t]
      have e := at_timegm_month_in_range { t with tm_year := t.tm_year - 4294967296 }
        (by simp only []; omega) (by simp only []; omega) hm0 hm1 (by simp only []; omega)
        (by simp only []; omega) (by simp only []; omega) (by simp only []; omega)
        (by simp only []; omega) (by simp only []; omega) (by simp only []; omega)
        (by simp only []; omega)
      simp only [] at e
      have hD := days_from_civil_before_0 (t.tm_year - 4294967296 + 1900) t.tm_mon t.tm_mday
        (by omega) hm0 hm1 hd1
      rw [e]
      omega
  · intro t hm1 hm2 hY1 hY2 hn1 hn2 hd1 hd2 hh1 hh2 hi1 hi2 hs1 hs2 h
    rw [← at_timegm_instant t hm1 hm2 hY1 hY2 hn1 hn2 hd1 hd2 hh1 hh2 hi1 hi2 hs1 hs2, h]
    decide

/-- C13 at 2014-01-01 00:00:00, the earliest time the year check lets through,
and at 1969-12-31 23:59:59, the only instant whose value is `-1`. -/
theorem at_timegm_from_2014_witness :
    1388534400 ≤ at_timegm ⟨0, 0, 0, 1, 0, 114⟩ ∧
    at_timegm ⟨0, 0, 0, 1, 0, 114⟩ ≠ -1 ∧
    at_timegm ⟨59, 59, 23, 31, 11, 69⟩ = -1 ∧
    86400 * days_from_civil (69 + 1900 + 11 / 12) (11 % 12 + 1) 31 + 3600 * 23 + 60 * 59 + 59
      = 86400 * days_from_civil 1969 12 31 + 3600 * 23 + 60 * 59 + 59 :=
  ⟨at_timegm_from_2014.1 ⟨0, 0, 0, 1, 0, 114⟩ (by decide) (by decide) (by decide) (by decide)
      (by decide) (by decide) (by decide) (by decide) (by decide) (by decide) (by decide)
      (by decide),
   at_timegm_from_2014.2.1 ⟨0, 0, 0, 1, 0, 114⟩ (by decide) (by decide) (by decide)
      (by decide) (by decide) (by decide) (by decide) (by decide) (by decide) (by decide)
      (by decide) (by decide),
   by decide,
   at_timegm_from_2014.2.2 ⟨59, 59, 23, 31, 11, 69⟩ (by decide) (by decide) (by decide)
      (by decide) (by decide) (by decide) (by decide) (by decide) (by decide) (by decide)
      (by decide) (by decide) (by decide) (by decide) (by decide)⟩

/-! ## Receiving from a socket -/

/-- Invariant of the loop of `telit2_socket_recv` when every response honours
its request: the count stays between 0 and the length, and so do the copies. -/
theorem socket_recv_loop_bounded (connid length : Int) (hl : length < 2147483648)
    (replies : List (Int → Int → Option (List Char)))
    (hr : ∀ reply ∈ replies, honours_request reply)
    (cnt : Int) (copies : List buffer_copy)
    (h0 : 0 ≤ cnt) (h1 : cnt ≤ max length 0)
    (hc : ∀ c ∈ copies, copy_within (max length 0) c) :
    (∀ c ∈ (socket_recv_loop connid length replies cnt copies).copies,
        copy_within (max length 0) c) ∧
      (∀ ret errno cs,
        socket_recv_loop connid length replies cnt copies = recv_outcome.returned ret errno cs →
        ret = -1 ∨ (0 ≤ ret ∧ ret ≤ max length 0)) := by
  induction replies generalizing cnt copies with
  | nil =>
    simp only [socket_recv_loop]
    split
    · exact ⟨hc, fun ret errno cs h => by cases h⟩
    · refine ⟨hc, fun ret errno cs h => ?_⟩
      cases h
      exact Or.inr ⟨h0, h1⟩
  | cons reply replies ih =>
    have hrest : ∀ r ∈ replies, honours_request r := fun r hm => hr r (List.mem_cons_of_mem _ hm)
    have hhon := hr reply (List.mem_cons_self _ _)
    simp only [socket_recv_loop]
    split
    · rename_i hlt
      cases hrep : reply connid (recv_chunk length cnt) with
      | none =>
        refine ⟨hc, fun ret errno cs h => ?_⟩
        cases h
        exact Or.inl rfl
      | some response =>
        simp only []
        by_cases hs : (sscanf response "#SRECV: %*d,%d").1 = 1
        · have hb := hhon connid (recv_chunk length cnt) response hrep hs
          have hne : ((sscanf response "#SRECV: %*d,%d").1 != 1) = false := by
            simp [hs]
          simp only [hne, Bool.false_eq_true, if_false]
          split
          · refine ⟨hc, fun ret errno cs h => ?_⟩
            cases h
            exact Or.inr ⟨h0, h1⟩
          · split
            · refine ⟨hc, fun ret errno cs h => ?_⟩
              cases h
              exact Or.inl rfl
            · have hchunk : recv_chunk length cnt ≤ length - cnt := by
                unfold recv_chunk
                simp only []
                rw [int32_of_range (by omega) (by omega)]
                split <;> omega
              generalize (sscanf response "#SRECV: %*d,%d").2.getD 0 0 = bytes at hb ⊢
              have hmax : max length 0 = length := by omega
              rw [int32_of_range (by omega) (by omega)]
              apply ih hrest (cnt + bytes) _ (by omega) (by omega)
              intro c hcm
              rcases List.mem_append.1 hcm with h | h
              · exact hc c h
              · rw [List.mem_singleton.1 h]
                exact ⟨h0, hb.1, by simp only []; omega⟩
        · have hne : ((sscanf response "#SRECV: %*d,%d").1 != 1) = true := by
            simp [hs]
          simp only [hne, if_true]
          exact ⟨hc, fun ret errno cs h => by cases h⟩
    · refine ⟨hc, fun ret errno cs h => ?_⟩
      cases h
      exact Or.inr ⟨h0, h1⟩

/-- C12 fails as stated: asked for 4 bytes, with a modem that answers the
command `AT#SRECV=1,4` by a header that reports 5 bytes, `telit2_socket_recv`
copies 5 bytes at offset 0 and returns 5. -/
theorem socket_recv_counterexample :
    telit2_socket_recv 1 4 [fun _ _ => some "#SRECV: 1,5\nABCDE".toList]
        = recv_outcome.returned 5 none [{ offset := 0, size := 5 }] ∧
      ¬ ((5 : Int) = -1 ∨ (0 ≤ (5 : Int) ∧ (5 : Int) ≤ (4 : Nat))) ∧
      ¬ ((0 : Int) + 5 ≤ (4 : Nat)) := by
  decide

/-- C12, amended: `telit2_socket_recv` never delivers more than the caller
asked for when the modem never reports more than was requested. For every
connid, every length and every sequence of modem replies to the `AT#SRECV`
commands it issues in which each reply reports a count between 0 and the chunk
requested, the function, when it returns, either returns `-1` or returns a
count `cnt` with `0 ≤ cnt ≤ length`, and every copy into the buffer of the
caller stays within the offsets `[0, length)`. -/
theorem socket_recv_bounded (connid : Int) (length : Nat)
    (replies : List (Int → Int → Option (List Char)))
    (hr : ∀ reply ∈ replies, honours_request reply) :
    (∀ c ∈ (telit2_socket_recv connid length replies).copies, copy_within length c) ∧
      (∀ ret errno cs,
        telit2_socket_recv connid length replies = recv_outcome.returned ret errno cs →
        ret = -1 ∨ (0 ≤ ret ∧ ret ≤ length)) := by
  have hl := (int32_range (length : Int)).2
  have hle : max (int32 (length : Int)) 0 ≤ (length : Int) := by
    unfold int32; omega
  have h := socket_recv_loop_bounded connid (int32 length) hl replies hr 0 [] (le_refl 0)
    (by omega) (by simp)
  unfold telit2_socket_recv
  constructor
  · intro c hcm
    have hw := h.1 c hcm
    exact ⟨hw.1, hw.2.1, le_trans hw.2.2 hle⟩
  · intro ret errno cs he
    rcases h.2 ret errno cs he with h1 | h1
    · exact Or.inl h1
    · exact Or.inr ⟨h1.1, le_trans h1.2 hle⟩

theorem modem_holds_honours (n : Int) (response : String) (h0 : 0 ≤ n)
    (h : sscanf response.toList "#SRECV: %*d,%d" = (1, [n])) :
    honours_request (modem_holds n response) := by
  intro connid chunk resp hrep _
  unfold modem_holds at hrep
  by_cases hn : n ≤ chunk
  · rw [if_pos hn] at hrep
    cases hrep
    rw [h]
    exact ⟨h0, hn⟩
  · rw [if_neg hn] at hrep
    cases hrep

/-- C12, amended, for a request of 5 bytes that the modem serves in two
chunks of 3 and 2 bytes: the function returns 5 and copies to the offsets 0..2
and 3..4. -/
theorem socket_recv_bounded_witness :
    telit2_socket_recv 1 5
        [modem_holds 3 "#SRECV: 1,3\nABC", modem_holds 2 "#SRECV: 1,2\nDE"]
      = recv_outcome.returned 5 none [{ offset := 0, size := 3 }, { offset := 3, size := 2 }] ∧
    ((5 : Int) = -1 ∨ (0 ≤ (5 : Int) ∧ (5 : Int) ≤ (5 : Nat))) :=
  ⟨by decide,
   (socket_recv_bounded 1 5
      [modem_holds 3 "#SRECV: 1,3\nABC", modem_holds 2 "#SRECV: 1,2\nDE"]
      (by
        intro reply hm
        rcases List.mem_cons.1 hm with h | h
        · rw [h]; exact modem_holds_honours 3 _ (by decide) (by decide)
        · rw [List.mem_singleton.1 h]; exact modem_holds_honours 2 _ (by decide) (by decide))).2
      5 none [{ offset := 0, size := 3 }, { offset := 3, size := 2 }] (by decide)⟩

/-! ## Conversion of the local time of the modem -/

/-- A date of the year 2013 or later, also with the day of month 0, lies after
the epoch. -/
theorem days_from_civil_from_2013 (Y m d : Int) (hY : 2013 ≤ Y) (h0 : 0 ≤ m) (h1 : m ≤ 11)
    (hd : 0 ≤ d) : 0 ≤ days_from_civil Y (m + 1) d := by
  have hc := civil_day_count Y m d h0 h1
  have hl0 : leaps_before 1970 = 477 := by decide
  have hM := days_before_month_nonneg (is_leap_year Y) m h0 h1
  have hL : 488 ≤ leaps_before Y := by unfold leaps_before; omega
  rw [hl0] at hc
  omega

/-- C9: `telit2_op_clock_gettime` converts the local time of the modem to UTC.
For every `+CCLK` reply with fields `yy/MM/dd,hh:mm:ss` (non-negative numbers,
as their digits denote) and signed timezone offset `q` (in quarter hours)
where `yy ≥ 14`, it returns 0, sets `ts->tv_nsec = 0` and sets
`ts->tv_sec = at_timegm(tm_year = yy + 100, tm_mon = MM - 1, tm_mday = dd,
tm_hour = hh, tm_min = mm, tm_sec = ss) - 900*q`. The year `2000 + yy + MM/12`,
`3600*hh`, `60*mm` and `900*q` fit an `int`, which holds for fields of two
digits; the guard `unix_time == -1` is then never taken. -/
theorem clock_gettime_local_to_utc (response : List Char) (ts : timespec)
    (yy MM dd hh mm ss q : Int)
    (hscan : sscanf response "+CCLK: \"%d/%d/%d,%d:%d:%d%d\""
      = (7, [yy, MM, dd, hh, mm, ss, q]))
    (hyy : 14 ≤ yy) (hMM : 0 ≤ MM) (hdd : 0 ≤ dd) (hhh : 0 ≤ hh) (hmm : 0 ≤ mm)
    (hss : 0 ≤ ss)
    (hY : yy + 2000 + MM / 12 < 2147483648)
    (hh2 : hh * 3600 < 2147483648) (hm2 : mm * 60 < 2147483648)
    (hq1 : -2147483648 ≤ 900 * q) (hq2 : 900 * q < 2147483648) :
    telit2_op_clock_gettime (some response) ts
      = clock_outcome.returned 0 none
          ⟨at_timegm ⟨ss, mm, hh, dd, MM - 1, yy + 100⟩ - 900 * q, 0⟩ := by
  have hr := sscanf_range response "+CCLK: \"%d/%d/%d,%d:%d:%d%d\""
  rw [hscan] at hr
  have rMM := hr MM (by simp)
  have rdd := hr dd (by simp)
  have rss := hr ss (by simp)
  have hinst := at_timegm_instant ⟨ss, mm, hh, dd, MM - 1, yy + 100⟩
    (by simp only []; omega) (by simp only []; omega) (by simp only []; omega)
    (by simp only []; omega) (by simp only []; omega) (by simp only []; omega)
    (by simp only []; omega) (by simp only []; omega) (by simp only []; omega)
    (by simp only []; omega) (by simp only []; omega) (by simp only []; omega)
    (by simp only []; omega) (by simp only []; omega)
  simp only [] at hinst
  have hD := days_from_civil_from_2013 (yy + 100 + 1900 + (MM - 1) / 12) ((MM - 1) % 12) dd
    (by omega) (by omega) (by omega) hdd
  have hne : at_timegm ⟨ss, mm, hh, dd, MM - 1, yy + 100⟩ ≠ -1 := by
    rw [hinst]; omega
  exact clock_gettime_of_conversion response ts yy MM dd hh mm ss q hscan hyy (by omega)
    (by omega) hq1 hq2 hne

set_option maxRecDepth 100000 in
/-- C9 at the reply `+CCLK: "14/01/01,00:00:00+08"`: midnight of 1 January
2014 two hours east of Greenwich is 1388527200. -/
theorem clock_gettime_local_to_utc_witness :
    telit2_op_clock_gettime (some "+CCLK: \"14/01/01,00:00:00+08\"".toList) ⟨0, 0⟩
      = clock_outcome.returned 0 none ⟨1388534400 - 900 * 8, 0⟩ :=
  (clock_gettime_local_to_utc "+CCLK: \"14/01/01,00:00:00+08\"".toList ⟨0, 0⟩
    14 1 1 0 0 0 8 (by decide) (by decide) (by decide) (by decide) (by decide) (by decide)
    (by decide) (by decide) (by decide) (by decide) (by decide) (by decide)).trans (by decide)

end Attentive
